import Mathlib

/-!
# sigrun: trust-chain verification and admission decisions

A shallow embedding of the parts of `pkg/config` and `cmd/sigrun-controller`
that decide how image references are normalized, how a chain of signed
configuration records is committed and verified, and how the admission
handler answers a request.

Conventions of the embedding.

* A Go `string` is a Lean `String`; indices produced by `strings.IndexRune`
  for ASCII runes are character positions.
* A Go call returning `(T, error)` is a `Result T`; a run-time panic is a
  failure of its own kind, so that it can be told apart from a returned
  error where the caller treats them differently.
* `int64` values are integers and `+` on them wraps (`add64`).
* Calls that leave the repository (reference grammar, cosign, base64, JSON,
  file and network access) are fields of an environment structure.
-/

namespace Sigrun

/-! ## Results of Go calls -/

/-- A failed Go call: an `error` value with its text, or a run-time panic. -/
inductive Failure where
  | error (msg : String)
  | panic (msg : String)
  deriving DecidableEq, Repr

/-- Outcome of a Go call of type `(T, error)`. -/
abbrev Result (α : Type) := Except Failure α

deriving instance DecidableEq for Except

/-- Text added in front of an error by `errors.Wrap`/`errors.Wrapf` of
`github.com/pkg/errors`; a panic is not an error value and passes through. -/
def Failure.wrap (msg : String) : Failure → Failure
  | .error e => .error (msg ++ ": " ++ e)
  | .panic m => .panic m

/-! ## `int64` arithmetic -/

/-- Smallest `int64`. -/
def minInt64 : Int := -9223372036854775808

/-- Largest `int64`. -/
def maxInt64 : Int := 9223372036854775807

/-- Go addition on `int64`: two's complement wrap-around. -/
def add64 (x y : Int) : Int :=
  (x + y + 9223372036854775808) % 18446744073709551616 - 9223372036854775808

/-! ## Image reference normalization (`pkg/config/config.go`) -/

/-- Byte index of the first `r` in `s`, or `-1` (`strings.IndexRune`). -/
def IndexRune (s : String) (r : Char) : Int :=
  if r ∈ s.data then (s.data.indexOf r : Nat) else -1

/-- Byte index of the last `r` in `s`, or `-1` (`strings.LastIndex` with a
one-character separator). -/
def LastIndex (s : String) (r : Char) : Int :=
  if r ∈ s.data then ((s.data.length - 1 - s.data.reverse.indexOf r : Nat) : Int) else -1

/-- Whether any character of `chars` occurs in `s` (`strings.ContainsAny`). -/
def ContainsAny (s chars : String) : Bool :=
  s.data.any (fun c => chars.data.contains c)

/-- The Go slice expression `s[:i]`. -/
def sliceTo (s : String) (i : Int) : String := ⟨s.data.take i.toNat⟩

/-- The Go slice expression `s[i:]`. -/
def sliceFrom (s : String) (i : Int) : String := ⟨s.data.drop i.toNat⟩

/-- Pieces of `s` between occurrences of `sep` (`strings.Split` with a
one-character separator); the result always has at least one piece. -/
def SplitChars (sep : Char) : List Char → List (List Char)
  | [] => [[]]
  | c :: cs =>
    if c = sep then [] :: SplitChars sep cs
    else
      match SplitChars sep cs with
      | [] => [[c]]
      | piece :: pieces => (c :: piece) :: pieces

/-- The expression `strings.Split(s, sep)[0]`. -/
def SplitFirst (s : String) (sep : Char) : String :=
  match SplitChars sep s.data with
  | [] => ""
  | piece :: _ => ⟨piece⟩

/-- Lower-casing of ASCII letters; `strings.ToLower` agrees with it on every
string made of ASCII characters only. -/
def asciiToLower (s : String) : String := ⟨s.data.map Char.toLower⟩

/-- Function `addDefaultDomain`. `ToLower` stands for `strings.ToLower`. -/
def addDefaultDomain (ToLower : String → String) (name : String) : String :=
  let i := IndexRune name '/'
  if i == -1 || (!ContainsAny (sliceTo name i) ".:" && sliceTo name i != "localhost"
      && ToLower (sliceTo name i) == sliceTo name i) then
    "docker.io/" ++ name
  else
    name

/-- What `reference.Parse` returns on success, seen through the three
interfaces `newImageInfo` asks for: `named` holds `reference.Domain` and
`reference.Path` when the reference is `Named`, `tagged` holds `Tag()` when it
is `Tagged`, `digested` holds `Digest().String()` when it is `Digested`. -/
structure Reference where
  named : Option (String × String)
  tagged : Option String
  digested : Option String
  deriving DecidableEq, Repr

/-- Struct `ImageInfo`. -/
structure ImageInfo where
  Registry : String
  Name : String
  Path : String
  Tag : String
  Digest : String
  deriving DecidableEq, Repr

/-- Method `(*ImageInfo).String`. -/
def ImageInfo.String (i : ImageInfo) : String :=
  let image := i.Registry ++ "/" ++ i.Path ++ ":" ++ i.Tag
  if i.Digest != "" then image ++ "@" ++ i.Digest else image

/-- The three strings `registry, path, name` set in `newImageInfo` from a
`Named` reference; all empty otherwise. -/
def namedParts (ref : Reference) : String × String × String :=
  match ref.named with
  | some (domain, path) => (domain, path, sliceFrom path (LastIndex path '/' + 1))
  | none => ("", "", "")

/-- Function `newImageInfo`. `Parse` stands for `reference.Parse`. -/
def newImageInfo (ToLower : String → String) (Parse : String → Result Reference)
    (image : String) : Result ImageInfo :=
  let image := addDefaultDomain ToLower image
  match Parse image with
  | .error f => .error (f.wrap ("bad image: " ++ image))
  | .ok ref =>
    let registry := (namedParts ref).1
    let path := (namedParts ref).2.1
    let name := (namedParts ref).2.2
    let tag := match ref.tagged with
      | some t => t
      | none => ""
    let digest := match ref.digested with
      | some d => d
      | none => ""
    let tag := if tag == "" then "latest" else tag
    .ok { Registry := registry, Name := name, Path := path, Tag := tag, Digest := digest }

/-- Function `NormalizeImageName`. -/
def NormalizeImageName (ToLower : String → String) (Parse : String → Result Reference)
    (image : String) : Result String :=
  match newImageInfo ToLower Parse image with
  | .error f => .error f
  | .ok imgInfo => .ok imgInfo.String

/-- The first path segment of `name`: everything before its first `'/'`. -/
def firstSegment (name : String) : String :=
  ⟨name.data.takeWhile (fun c => c != '/')⟩

/-- The default-domain rule in the words of the specification: `name` has no
`'/'`, or its first segment has neither `'.'` nor `':'`, is not `localhost`
and is its own lower-casing. -/
def NeedsDefaultDomain (ToLower : String → String) (name : String) : Prop :=
  '/' ∉ name.data ∨
    ('.' ∉ (firstSegment name).data ∧ ':' ∉ (firstSegment name).data ∧
      firstSegment name ≠ "localhost" ∧ ToLower (firstSegment name) = firstSegment name)

instance (ToLower : String → String) (name : String) :
    Decidable (NeedsDefaultDomain ToLower name) := by
  unfold NeedsDefaultDomain; infer_instance

/-- The tag the specification asks for: the parsed tag when there is one,
`latest` otherwise. -/
def specTag (ref : Reference) : String :=
  match ref.tagged with
  | some t => t
  | none => "latest"

/-- The canonical rendering `registry/path:tag[@digest]` of the specification,
with `@digest` exactly when a digest was parsed. -/
def specRendering (ref : Reference) : String :=
  match ref.digested with
  | some d => (namedParts ref).1 ++ "/" ++ (namedParts ref).2.1 ++ ":" ++ specTag ref ++ "@" ++ d
  | none => (namedParts ref).1 ++ "/" ++ (namedParts ref).2.1 ++ ":" ++ specTag ref

/-- What the reference grammar guarantees about a parsed reference: a tag or
digest that is present is not the empty string. -/
def Reference.WellFormed (ref : Reference) : Prop :=
  ref.tagged ≠ some "" ∧ ref.digested ≠ some ""

/-- A parser used to exercise the definitions: it knows three references. -/
def sampleParse (image : String) : Result Reference :=
  if image = "docker.io/myrepo/app" then
    .ok { named := some ("docker.io", "myrepo/app"), tagged := none, digested := none }
  else if image = "docker.io/myrepo/app@sha256:deadbeef" then
    .ok { named := some ("docker.io", "myrepo/app"), tagged := none,
          digested := some "sha256:deadbeef" }
  else if image = "localhost:5000/app" then
    .ok { named := some ("localhost:5000", "app"), tagged := none, digested := none }
  else
    .error (.error "invalid reference format")

/-! ## Configuration records (`pkg/config/default_config.go`, `keyless_config.go`) -/

/-- Raw bytes (`[]byte`). -/
abbrev Bytes := List UInt8

/-- Struct `DefaultConfig`, the key-pair record (`KeyPair` in `config.go`). -/
structure DefaultConfig where
  Name : String
  Mode : String
  ChainNo : Int
  PublicKey : String
  PrivateKey : String
  Images : List String
  Signature : String
  deriving DecidableEq, Repr

/-- Struct `KeylessConfig` (`Keyless` in `config.go`). -/
structure KeylessConfig where
  Name : String
  Mode : String
  ChainNo : Int
  Maintainers : List String
  Images : List String
  Signature : String
  deriving DecidableEq, Repr

/-- A value of the interface `Config`: one of its two implementations. -/
inductive Config where
  | keypair (conf : DefaultConfig)
  | keyless (conf : KeylessConfig)
  deriving DecidableEq, Repr

/-- Struct `VerificationInfo`. -/
structure VerificationInfo where
  Name : String
  Mode : String
  ChainNo : Int
  PublicKey : String
  Maintainers : List String
  Images : List String
  deriving DecidableEq, Repr

/-- Constant `CONFIG_MODE_KEYLESS`. -/
def CONFIG_MODE_KEYLESS : String := "keyless"

/-- Function `GetVerificationConfigFromVerificationInfo`. -/
def GetVerificationConfigFromVerificationInfo (info : VerificationInfo) : Config :=
  if info.Mode == CONFIG_MODE_KEYLESS then
    .keyless { Name := info.Name, Mode := info.Mode, ChainNo := info.ChainNo,
               Maintainers := info.Maintainers, Images := info.Images, Signature := "" }
  else
    .keypair { Name := info.Name, Mode := info.Mode, ChainNo := info.ChainNo,
               PublicKey := info.PublicKey, PrivateKey := "", Images := info.Images,
               Signature := "" }

/-- The calls `DefaultConfig` makes outside the repository: the password
prompt and key loading of cosign, the ECDSA signer and verifier of sigstore,
`encoding/base64` and `encoding/json`. `jsonMarshal` is total because
`json.Marshal` cannot fail on a struct of strings, an integer and a string
slice. -/
structure Externals (Signer PubKey Verifier : Type) where
  GetPass : Result String
  LoadECDSAPrivateKey : String → String → Result Signer
  SignMessage : Signer → Bytes → Result Bytes
  PemToECDSAKey : String → Result PubKey
  LoadECDSAVerifier : PubKey → Result Verifier
  VerifySignature : Verifier → Bytes → Bytes → Result Unit
  EncodeToString : Bytes → String
  DecodeString : String → Result Bytes
  jsonMarshal : DefaultConfig → Bytes

/-- Method `(*DefaultConfig).SignDoc`: the record marshalled with its
`Signature` cleared. -/
def DefaultConfig.SignDoc (jsonMarshal : DefaultConfig → Bytes) (conf : DefaultConfig) :
    Result Bytes :=
  let signDoc := { conf with Signature := "" }
  .ok (jsonMarshal signDoc)

/-- Method `(*DefaultConfig).GetSignature`. -/
def DefaultConfig.GetSignature (conf : DefaultConfig) : String := conf.Signature

/-- Method `(*DefaultConfig).GetChainNo`. -/
def DefaultConfig.GetChainNo (conf : DefaultConfig) : Int := conf.ChainNo

/-- Method `(*DefaultConfig).Sign`. -/
def DefaultConfig.Sign {Signer PubKey Verifier : Type} (X : Externals Signer PubKey Verifier)
    (conf : DefaultConfig) (data : Bytes) : Result String :=
  match X.GetPass with
  | .error f => .error f
  | .ok password =>
    match X.LoadECDSAPrivateKey conf.PrivateKey password with
    | .error f => .error f
    | .ok signer =>
      match X.SignMessage signer data with
      | .error f => .error f
      | .ok sig => .ok (X.EncodeToString sig)

/-- Interface method `Config.SignDoc`; every method of `KeylessConfig` is
`panic("implement me")`. -/
def Config.SignDoc (jsonMarshal : DefaultConfig → Bytes) : Config → Result Bytes
  | .keypair conf => conf.SignDoc jsonMarshal
  | .keyless _ => .error (.panic "implement me")

/-- Interface method `Config.GetSignature`. -/
def Config.GetSignature : Config → Result String
  | .keypair conf => .ok conf.GetSignature
  | .keyless _ => .error (.panic "implement me")

/-- Interface method `Config.GetChainNo`. -/
def Config.GetChainNo : Config → Result Int
  | .keypair conf => .ok conf.GetChainNo
  | .keyless _ => .error (.panic "implement me")

/-- Interface method `Config.Sign`. -/
def Config.Sign {Signer PubKey Verifier : Type} (X : Externals Signer PubKey Verifier) :
    Config → Bytes → Result String
  | .keypair conf, data => conf.Sign X data
  | .keyless _, _ => .error (.panic "implement me")

/-- Method `(*DefaultConfig).VerifySuccessorConfig`. -/
def DefaultConfig.VerifySuccessorConfig {Signer PubKey Verifier : Type}
    (X : Externals Signer PubKey Verifier) (conf : DefaultConfig) (config : Config) :
    Result Unit :=
  match config.SignDoc X.jsonMarshal with
  | .error f => .error f
  | .ok data =>
    match X.PemToECDSAKey conf.PublicKey with
    | .error f => .error f
    | .ok pubK =>
      match X.LoadECDSAVerifier pubK with
      | .error f => .error f
      | .ok verifier =>
        match config.GetSignature with
        | .error f => .error f
        | .ok signature =>
          match X.DecodeString signature with
          | .error f => .error f
          | .ok sigRaw => X.VerifySignature verifier sigRaw data

/-- Interface method `Config.VerifySuccessorConfig`. -/
def Config.VerifySuccessorConfig {Signer PubKey Verifier : Type}
    (X : Externals Signer PubKey Verifier) : Config → Config → Result Unit
  | .keypair conf, config => conf.VerifySuccessorConfig X config
  | .keyless _, _ => .error (.panic "implement me")

/-- Modelled from the spec: `isSame` is called by `VerifyChain` and
`CommitRepositoryUpdate` but its body is not among the sources. The
specification describes it as equality of content ignoring `Signature`, and
`SignDoc` is the serialization with `Signature` cleared, so the two documents
are compared. An argument is `none` for the nil interface value, on which a
method call panics. -/
def isSame (jsonMarshal : DefaultConfig → Bytes) (conf1 conf2 : Option Config) : Result Bool :=
  match conf1 with
  | none => .error (.panic "invalid memory address or nil pointer dereference")
  | some c1 =>
    match c1.SignDoc jsonMarshal with
    | .error f => .error f
    | .ok doc1 =>
      match conf2 with
      | none => .error (.panic "invalid memory address or nil pointer dereference")
      | some c2 =>
        match c2.SignDoc jsonMarshal with
        | .error f => .error f
        | .ok doc2 => .ok (decide (doc1 = doc2))

/-- Content equality ignoring `Signature`, as `isSame` decides it. -/
def ContentEqual (jsonMarshal : DefaultConfig → Bytes) (conf1 conf2 : Config) : Prop :=
  isSame jsonMarshal (some conf1) (some conf2) = .ok true

instance (jsonMarshal : DefaultConfig → Bytes) (conf1 conf2 : Config) :
    Decidable (ContentEqual jsonMarshal conf1 conf2) := by
  unfold ContentEqual; infer_instance

/-! ## Committing a new record (`CommitRepositoryUpdate`) -/

/-- What `CommitRepositoryUpdate` needs besides the externals: the constant
`FILE_NAME`, the head read by `getChainHead`, and the outcome of writing a
record to a path with `set` (none of the three is among the sources). -/
structure CommitEnv (Signer PubKey Verifier : Type) extends
    Externals Signer PubKey Verifier where
  FILE_NAME : String
  getChainHead : Result Config
  set : String → DefaultConfig → Result Unit

/-- State after a call of `CommitRepositoryUpdate`: the receiver as the call
left it, the writes that `set` completed, in order, and the returned error. -/
structure CommitRun where
  conf : DefaultConfig
  writes : List (String × DefaultConfig)
  result : Result Unit
  deriving DecidableEq, Repr

/-- Path of the archival record at a chain position:
`".sigrun/" + fmt.Sprint(n) + ".json"`. -/
def archivePath (n : Int) : String := ".sigrun/" ++ toString n ++ ".json"

/-- Method `(*DefaultConfig).CommitRepositoryUpdate`. -/
def DefaultConfig.CommitRepositoryUpdate {Signer PubKey Verifier : Type}
    (E : CommitEnv Signer PubKey Verifier) (conf : DefaultConfig) : CommitRun :=
  match E.getChainHead with
  | .error f => ⟨conf, [], .error f⟩
  | .ok oldConf =>
    match isSame E.jsonMarshal (some (.keypair conf)) (some oldConf) with
    | .error f => ⟨conf, [], .error f⟩
    | .ok true => ⟨conf, [], .error (.error "config has not changed")⟩
    | .ok false =>
      match oldConf.GetChainNo with
      | .error f => ⟨conf, [], .error f⟩
      | .ok oldNo =>
        let conf1 := { conf with ChainNo := add64 oldNo 1 }
        match conf1.SignDoc E.jsonMarshal with
        | .error f => ⟨conf1, [], .error f⟩
        | .ok signDoc =>
          match oldConf.Sign E.toExternals signDoc with
          | .error f => ⟨conf1, [], .error f⟩
          | .ok sig =>
            let conf2 := { conf1 with Signature := sig }
            match E.set E.FILE_NAME conf2 with
            | .error f => ⟨conf2, [], .error f⟩
            | .ok _ =>
              match E.set (archivePath conf2.ChainNo) conf2 with
              | .error f => ⟨conf2, [(E.FILE_NAME, conf2)], .error f⟩
              | .ok _ =>
                ⟨conf2, [(E.FILE_NAME, conf2), (archivePath conf2.ChainNo, conf2)], .ok ()⟩

/-! ## Chain verification (`VerifyChain`) -/

/-- What `VerifyChain` is run against. `fetch n` is the record obtained for
chain position `n`: `ReadRepos` on the path of that position followed by the
lookup in the returned map. `VerifySuccessorConfig prev curr` is the call
`prev.VerifySuccessorConfig(curr)`. -/
structure ChainEnv where
  jsonMarshal : DefaultConfig → Bytes
  fetch : Int → Result Config
  VerifySuccessorConfig : Config → Config → Result Unit

/-- What `VerifyChain` does that can be observed from outside: a fetch of a
chain position, or a successor check of one record against another. -/
inductive Event where
  | fetch (position : Int)
  | check (prev curr : Config)
  deriving DecidableEq, Repr

/-- A run of `VerifyChain`: the events in the order they happened and the
returned error, or `none` when the loop was still running after the allowed
number of iterations. -/
structure ChainRun where
  events : List Event
  result : Option (Result Unit)
  deriving DecidableEq, Repr

/-- The statements of `VerifyChain` after its loop: `isSame(currConf, newConf)`
and the comparison of its answer. -/
def chainHeadCheck (jsonMarshal : DefaultConfig → Bytes) (currConf : Option Config)
    (newConf : Config) : Result Unit :=
  match isSame jsonMarshal currConf (some newConf) with
  | .error f => .error f
  | .ok true => .ok ()
  | .ok false => .error (.error "chain head is not the same as config file")

/-- The loop of `VerifyChain` from the state `currentChainNo, prevConf,
currConf`, running at most `fuel` iterations, followed by the statements after
the loop. -/
def chainLoop (E : ChainEnv) (newConf : Config) (fuel : Nat) (currentChainNo : Int)
    (prevConf : Config) (currConf : Option Config) : ChainRun :=
  match newConf.GetChainNo with
  | .error f => ⟨[], some (.error f)⟩
  | .ok newNo =>
    if currentChainNo ≤ newNo then
      match fuel with
      | 0 => ⟨[], none⟩
      | fuel + 1 =>
        match E.fetch currentChainNo with
        | .error f => ⟨[.fetch currentChainNo], some (.error f)⟩
        | .ok fetched =>
          match E.VerifySuccessorConfig prevConf fetched with
          | .error f => ⟨[.fetch currentChainNo, .check prevConf fetched], some (.error f)⟩
          | .ok _ =>
            match fetched.GetChainNo with
            | .error f => ⟨[.fetch currentChainNo, .check prevConf fetched], some (.error f)⟩
            | .ok fetchedNo =>
              let rest := chainLoop E newConf fuel (add64 fetchedNo 1) fetched (some fetched)
              ⟨.fetch currentChainNo :: .check prevConf fetched :: rest.events, rest.result⟩
    else
      ⟨[], some (chainHeadCheck E.jsonMarshal currConf newConf)⟩

/-- Function `VerifyChain`, its loop bounded by `fuel` iterations. -/
def VerifyChain (E : ChainEnv) (fuel : Nat) (oldConf newConf : Config) : ChainRun :=
  match oldConf.GetChainNo with
  | .error f => ⟨[], some (.error f)⟩
  | .ok oldNo => chainLoop E newConf fuel (add64 oldNo 1) oldConf none

/-- Positions fetched during a run, in order. -/
def fetchedPositions : List Event → List Int
  | [] => []
  | .fetch n :: rest => n :: fetchedPositions rest
  | .check _ _ :: rest => fetchedPositions rest

/-- An event failed with `f`: the fetch or the successor check it stands for
returned `f`. -/
def Event.FailsWith (E : ChainEnv) (f : Failure) : Event → Prop
  | .fetch n => E.fetch n = .error f
  | .check prev curr => E.VerifySuccessorConfig prev curr = .error f

/-- The integers `lo + 1, lo + 2, ..., lo + count` in ascending order. -/
def positionsAfter (lo : Int) : Nat → List Int
  | 0 => []
  | count + 1 => (lo + 1) :: positionsAfter (lo + 1) count

/-! ## The admission handler (`cmd/sigrun-controller/main.go`) -/

/-- A container of the admitted resource; only its image is read. -/
structure Container where
  Image : String
  deriving DecidableEq, Repr

/-- An entry of `guidToRepo`; only its `VerificationInfo` is read. -/
structure RepoInfo where
  VerificationInfo : VerificationInfo
  deriving DecidableEq, Repr

/-- What the handler sends back: an admission review with `allowed` and, on
denial, `result.message`; or, from `handleErr`, a bare HTTP status with a text
body; or nothing, when the handler goroutine panicked. -/
inductive Response where
  | review (allowed : Bool) (message : Option String)
  | plain (status : Nat) (body : String)
  | crashed (msg : String)
  deriving DecidableEq, Repr

/-- Function `handleErr`: status 500 and the error text as body. -/
def handleErr (err : String) : Response := .plain 500 err

/-- The two maps returned by `ParseSigrunConfigMap`. `guidToRepo` maps to
pointers, so a GUID without an entry yields nil. -/
structure Registry where
  guidToRepo : String → Option RepoInfo
  imageToGuids : String → List String

/-- What the handler is run against: the collaborators of its first four
steps, the reference parser and lower-casing used by `NormalizeImageName`, and
`VerifyImage` of the configuration built for a GUID. -/
structure HandlerEnv (Review ConfigMap : Type) where
  Decode : String → Result Review
  cacheGet : Result ConfigMap
  ParseSigrunConfigMap : ConfigMap → Result Registry
  GetContainersFromResource : Review → Result (List Container)
  ToLower : String → String
  Parse : String → Result Reference
  VerifyImage : Config → String → Result Unit

/-- An evaluation of the handler: the `VerifyImage` calls made, as pairs of
GUID and image in call order, and the response. -/
structure Evaluation where
  calls : List (String × String)
  response : Response
  deriving DecidableEq, Repr

/-- How the handler answers a failure that is not a `VerifyImage` error: a
returned error goes to `handleErr`, a panic ends the handler. -/
def failureResponse : Failure → Response
  | .error e => handleErr e
  | .panic m => .crashed m

/-- The inner loop of the handler over the GUIDs of one image. The response is
`none` when every GUID passed and the loop ran to its end. -/
def guidLoop (VerifyImage : Config → String → Result Unit)
    (guidToRepo : String → Option RepoInfo) (img : String) :
    List String → List (String × String) × Option Response
  | [] => ([], none)
  | guid :: guids =>
    match guidToRepo guid with
    | none => ([], some (.crashed "invalid memory address or nil pointer dereference"))
    | some repo =>
      let conf := GetVerificationConfigFromVerificationInfo repo.VerificationInfo
      match VerifyImage conf img with
      | .error (.error msg) => ([(guid, img)], some (.review false (some msg)))
      | .error (.panic m) => ([(guid, img)], some (.crashed m))
      | .ok _ =>
        ((guid, img) :: (guidLoop VerifyImage guidToRepo img guids).1,
          (guidLoop VerifyImage guidToRepo img guids).2)

/-- The outer loop of the handler over the containers, and the allowing
response after it. -/
def containerLoop {Review ConfigMap : Type} (E : HandlerEnv Review ConfigMap)
    (reg : Registry) : List Container → Evaluation
  | [] => ⟨[], .review true none⟩
  | container :: containers =>
    match NormalizeImageName E.ToLower E.Parse container.Image with
    | .error f => ⟨[], failureResponse f⟩
    | .ok img =>
      let strippedImg := SplitFirst img ':'
      match guidLoop E.VerifyImage reg.guidToRepo img (reg.imageToGuids strippedImg) with
      | (calls, some response) => ⟨calls, response⟩
      | (calls, none) =>
        ⟨calls ++ (containerLoop E reg containers).calls,
          (containerLoop E reg containers).response⟩

/-- The handler registered for `/validate`, applied to a request body. -/
def validate {Review ConfigMap : Type} (E : HandlerEnv Review ConfigMap) (body : String) :
    Evaluation :=
  match E.Decode body with
  | .error f => ⟨[], failureResponse f⟩
  | .ok req =>
    match E.cacheGet with
    | .error f => ⟨[], failureResponse f⟩
    | .ok configMap =>
      match E.ParseSigrunConfigMap configMap with
      | .error f => ⟨[], failureResponse f⟩
      | .ok reg =>
        match E.GetContainersFromResource req with
        | .error f => ⟨[], failureResponse f⟩
        | .ok containers => containerLoop E reg containers

/-! ## A small concrete instance

A toy signature scheme and store, used to run the definitions on concrete
records. A private key `SKx` and a public key `PKx` belong together; a
signature is the key's name followed by the signed bytes. -/

/-- The name shared by the two keys of a pair: the key text without its first
two characters. -/
def sampleKeyName (key : String) : Bytes :=
  (key.data.drop 2).map (fun c => UInt8.ofNat c.toNat)

/-- A JSON-like serialization that writes every field of the record. -/
def sampleMarshal (c : DefaultConfig) : Bytes :=
  (String.intercalate "|"
    ([c.Name, c.Mode, toString c.ChainNo, c.PublicKey, c.PrivateKey] ++ c.Images ++
      [c.Signature])).data.map (fun ch => UInt8.ofNat ch.toNat)

/-- The toy externals. -/
def sampleExternals : Externals String String String where
  GetPass := .ok "secret"
  LoadECDSAPrivateKey := fun pem password =>
    if password = "secret" then .ok pem else .error (.error "decryption failed")
  SignMessage := fun signer data => .ok (sampleKeyName signer ++ data)
  PemToECDSAKey := fun pem => .ok pem
  LoadECDSAVerifier := fun pubK => .ok pubK
  VerifySignature := fun verifier sig data =>
    if sig = sampleKeyName verifier ++ data then .ok () else .error (.error "invalid signature")
  EncodeToString := fun b => ⟨b.map (fun u => Char.ofNat u.toNat)⟩
  DecodeString := fun s => .ok (s.data.map (fun c => UInt8.ofNat c.toNat))
  jsonMarshal := sampleMarshal

/-- The genesis record of the sample chain. -/
def sampleGenesis : DefaultConfig :=
  { Name := "repo", Mode := "keypair", ChainNo := 0, PublicKey := "PK0", PrivateKey := "SK0",
    Images := ["docker.io/myrepo/app"], Signature := "" }

/-- The genesis record edited to rotate the key pair, not yet committed. -/
def sampleUpdate : DefaultConfig :=
  { sampleGenesis with PublicKey := "PK1", PrivateKey := "SK1" }

/-- A repository whose head is the genesis record and whose writes succeed. -/
def sampleCommitEnv : CommitEnv String String String :=
  { sampleExternals with
    FILE_NAME := "sigrun-config.json"
    getChainHead := .ok (.keypair sampleGenesis)
    set := fun _ _ => .ok () }

/-! ## Vocabulary for the admission decision -/

/-- The `VerifyImage` calls the handler makes for one pair of GUID and image,
run on a list of such pairs in order; stops at the first pair that does not
pass. The response is `none` when every pair passed. -/
def runChecks (VerifyImage : Config → String → Result Unit)
    (guidToRepo : String → Option RepoInfo) :
    List (String × String) → List (String × String) × Option Response
  | [] => ([], none)
  | (guid, img) :: rest =>
    match guidToRepo guid with
    | none => ([], some (.crashed "invalid memory address or nil pointer dereference"))
    | some repo =>
      match VerifyImage (GetVerificationConfigFromVerificationInfo repo.VerificationInfo) img with
      | .error (.error msg) => ([(guid, img)], some (.review false (some msg)))
      | .error (.panic m) => ([(guid, img)], some (.crashed m))
      | .ok _ =>
        ((guid, img) :: (runChecks VerifyImage guidToRepo rest).1,
          (runChecks VerifyImage guidToRepo rest).2)

/-- Success of `VerifyImage` for `img` under `guid`: the GUID has an entry and
the configuration built from it verifies the image. -/
def Passes (VerifyImage : Config → String → Result Unit)
    (guidToRepo : String → Option RepoInfo) (p : String × String) : Prop :=
  ∃ repo, guidToRepo p.1 = some repo ∧
    VerifyImage (GetVerificationConfigFromVerificationInfo repo.VerificationInfo) p.2 = .ok ()

/-- Failure of `VerifyImage` for `img` under `guid` with the error `msg`. -/
def FailsWith (VerifyImage : Config → String → Result Unit)
    (guidToRepo : String → Option RepoInfo) (p : String × String) (msg : String) : Prop :=
  ∃ repo, guidToRepo p.1 = some repo ∧
    VerifyImage (GetVerificationConfigFromVerificationInfo repo.VerificationInfo) p.2
      = .error (.error msg)

/-- The pairs of GUID and normalized image the policy asks to be verified for
a list of containers: for each container in request order, each GUID of
`imageToGuids` at the container's lookup key in list order. -/
def requiredChecks {Review ConfigMap : Type} (E : HandlerEnv Review ConfigMap)
    (reg : Registry) : List Container → List (String × String)
  | [] => []
  | container :: containers =>
    match NormalizeImageName E.ToLower E.Parse container.Image with
    | .error _ => requiredChecks E reg containers
    | .ok img =>
      (reg.imageToGuids (SplitFirst img ':')).map (fun guid => (guid, img))
        ++ requiredChecks E reg containers

/-- The sample registry: one image registered under two GUIDs. -/
def sampleRegistry : Registry where
  guidToRepo := fun guid =>
    if guid = "guid-a" then
      some ⟨{ Name := "a", Mode := "keypair", ChainNo := 0, PublicKey := "PK0",
              Maintainers := [], Images := ["docker.io/myrepo/app"] }⟩
    else if guid = "guid-b" then
      some ⟨{ Name := "b", Mode := "keypair", ChainNo := 0, PublicKey := "PK1",
              Maintainers := [], Images := ["docker.io/myrepo/app"] }⟩
    else none
  imageToGuids := fun name =>
    if name = "docker.io/myrepo/app" then ["guid-a", "guid-b"] else []

/-- The sample handler environment: request bodies are a list of images
separated by commas, and only the key `PK0` has signed the sample image. -/
def sampleHandlerEnv : HandlerEnv (List String) Unit where
  Decode := fun body =>
    if body = "" then .error (.error "EOF")
    else .ok ((SplitChars ',' body.data).map String.mk)
  cacheGet := .ok ()
  ParseSigrunConfigMap := fun _ => .ok sampleRegistry
  GetContainersFromResource := fun req => .ok (req.map Container.mk)
  ToLower := asciiToLower
  Parse := sampleParse
  VerifyImage := fun conf _ =>
    match conf with
    | .keypair c => if c.PublicKey = "PK0" then .ok () else .error (.error "invalid signature")
    | .keyless _ => .error (.panic "implement me")

/-! ## Vocabulary for chain verification -/

/-- Records that the fetches of a run returned, in order. -/
def fetchedRecords (E : ChainEnv) : List Event → List Config
  | [] => []
  | .fetch n :: rest =>
    match E.fetch n with
    | .ok c => c :: fetchedRecords E rest
    | .error _ => fetchedRecords E rest
  | .check _ _ :: rest => fetchedRecords E rest

/-- The successor checks of a run, in order, as pairs of the record that
checked and the record that was checked. -/
def checkedPairs : List Event → List (Config × Config)
  | [] => []
  | .fetch _ :: rest => checkedPairs rest
  | .check prev curr :: rest => (prev, curr) :: checkedPairs rest

/-- Acceptance of a successor: `prev.VerifySuccessorConfig(curr)` returns no error. -/
def Accepts (E : ChainEnv) (prev curr : Config) : Prop :=
  E.VerifySuccessorConfig prev curr = .ok ()

/-- The record that the sample commit produces on top of the genesis record. -/
def sampleLink : DefaultConfig :=
  (sampleUpdate.CommitRepositoryUpdate sampleCommitEnv).conf

/-- The sample archive: genesis at position 0, the committed record at
position 1, nothing else; successor checks use the toy signature scheme. -/
def sampleChainEnv : ChainEnv where
  jsonMarshal := sampleMarshal
  fetch := fun n =>
    if n = 0 then .ok (.keypair sampleGenesis)
    else if n = 1 then .ok (.keypair sampleLink)
    else .error (.error "404 Not Found")
  VerifySuccessorConfig := Config.VerifySuccessorConfig sampleExternals

/-- The sample genesis record with another chain number. -/
def sampleAt (n : Int) : DefaultConfig := { sampleGenesis with ChainNo := n }

/-- An archive that answers every position with a record carrying `ChainNo`
`carried n`, and in which every successor check succeeds. -/
def relabelledEnv (carried : Int → Int) : ChainEnv where
  jsonMarshal := sampleMarshal
  fetch := fun n => .ok (.keypair (sampleAt (carried n)))
  VerifySuccessorConfig := fun _ _ => .ok ()

/-- An event succeeded: the fetch returned a record, the successor check
returned no error. -/
def Event.Succeeds (E : ChainEnv) : Event → Prop
  | .fetch n => ∃ c, E.fetch n = .ok c
  | .check prev curr => E.VerifySuccessorConfig prev curr = .ok ()

/-- The position the loop turns to after the records `recs` were fetched,
having started at `start`: one more than the `ChainNo` of the last of them. -/
def positionAfter (start : Int) (recs : List Config) : Result Int :=
  match recs.getLast? with
  | none => .ok start
  | some c =>
    match c.GetChainNo with
    | .error f => .error f
    | .ok k => .ok (add64 k 1)

/-- The position `VerifyChain` turns to after the records `recs` were fetched:
one more than the `ChainNo` of the last of them, of `oldConf` when there is
none. -/
def nextPosition (oldConf : Config) (recs : List Config) : Result Int :=
  match (recs.getLast?.getD oldConf).GetChainNo with
  | .error f => .error f
  | .ok k => .ok (add64 k 1)

/-- The sample repository with another head. -/
def sampleCommitOn (head : DefaultConfig) : CommitEnv String String String :=
  { sampleCommitEnv with getChainHead := .ok (.keypair head) }

/-- The second committed record: an image added, signed by the key of the
first. -/
def sampleLink2 : DefaultConfig :=
  (DefaultConfig.CommitRepositoryUpdate (sampleCommitOn sampleLink)
    { sampleLink with Images := ["docker.io/myrepo/app", "docker.io/myrepo/tool"] }).conf

/-- The third committed record: the key pair rotated again. -/
def sampleLink3 : DefaultConfig :=
  (DefaultConfig.CommitRepositoryUpdate (sampleCommitOn sampleLink2)
    { sampleLink2 with PublicKey := "PK2", PrivateKey := "SK2" }).conf

/-- The sample archive grown to three committed records; successor checks use
the toy signature scheme. -/
def sampleLongChainEnv : ChainEnv where
  jsonMarshal := sampleMarshal
  fetch := fun n =>
    if n = 0 then .ok (.keypair sampleGenesis)
    else if n = 1 then .ok (.keypair sampleLink)
    else if n = 2 then .ok (.keypair sampleLink2)
    else if n = 3 then .ok (.keypair sampleLink3)
    else .error (.error "404 Not Found")
  VerifySuccessorConfig := Config.VerifySuccessorConfig sampleExternals

/-- The second record with its image list altered after signing. -/
def sampleForged2 : DefaultConfig :=
  { sampleLink2 with Images := ["docker.io/evil/app"] }

/-- The three-record archive with the forged record at position 2. -/
def sampleTamperedChainEnv : ChainEnv where
  jsonMarshal := sampleMarshal
  fetch := fun n =>
    if n = 0 then .ok (.keypair sampleGenesis)
    else if n = 1 then .ok (.keypair sampleLink)
    else if n = 2 then .ok (.keypair sampleForged2)
    else if n = 3 then .ok (.keypair sampleLink3)
    else .error (.error "404 Not Found")
  VerifySuccessorConfig := Config.VerifySuccessorConfig sampleExternals

/-! ## Theorems: image reference normalization -/

theorem take_indexOf_eq_takeWhile (r : Char) (l : List Char) :
    l.take (l.indexOf r) = l.takeWhile (fun c => c != r) := by
  induction l with
  | nil => simp
  | cons a t ih =>
    by_cases h : a = r
    · subst h; simp [List.indexOf_cons_self]
    · have h2 : (a != r) = true := by simp [h]
      rw [List.indexOf_cons_ne _ h]
      simp [List.take_succ_cons, List.takeWhile_cons, h2, ih]

theorem sliceTo_IndexRune (name : String) (h : '/' ∈ name.data) :
    sliceTo name (IndexRune name '/') = firstSegment name := by
  simp [sliceTo, IndexRune, h, firstSegment, take_indexOf_eq_takeWhile]

theorem IndexRune_eq_neg_one (name : String) (r : Char) :
    IndexRune name r = -1 ↔ r ∉ name.data := by
  unfold IndexRune
  split
  · rename_i h
    constructor
    · intro h2; omega
    · intro h2; exact absurd h h2
  · rename_i h; simp [h]

theorem ContainsAny_dot_colon (s : String) :
    ContainsAny s ".:" = false ↔ ('.' ∉ s.data ∧ ':' ∉ s.data) := by
  unfold ContainsAny
  rw [Bool.eq_false_iff]
  simp only [ne_eq, List.any_eq_true, not_exists, not_and]
  constructor
  · intro h
    exact ⟨fun h1 => h _ h1 (by decide), fun h1 => h _ h1 (by decide)⟩
  · rintro ⟨h1, h2⟩ c hc hcon
    have : c = '.' ∨ c = ':' := by
      have : c ∈ ['.', ':'] := by simpa using hcon
      simpa using this
    rcases this with rfl | rfl
    · exact h1 hc
    · exact h2 hc

theorem default_domain_prefix_ne (name : String) : "docker.io/" ++ name ≠ name := by
  intro h
  have := congrArg String.length h
  simp [String.length_append] at this
  have h2 : "docker.io/".length = 10 := by decide
  omega

theorem addDefaultDomain_eq_ite (ToLower : String → String) (name : String) :
    addDefaultDomain ToLower name =
      if NeedsDefaultDomain ToLower name then "docker.io/" ++ name else name := by
  unfold addDefaultDomain NeedsDefaultDomain
  by_cases hs : '/' ∈ name.data
  · have hi : ¬ IndexRune name '/' = -1 := by rw [IndexRune_eq_neg_one]; simpa using hs
    simp only [sliceTo_IndexRune name hs, hs, not_true_eq_false, false_or]
    by_cases hc : ContainsAny (firstSegment name) ".:" = false
    · have hc2 := (ContainsAny_dot_colon _).1 hc
      simp [hi, hc, hc2]
    · have hc2 : ¬ ('.' ∉ (firstSegment name).data ∧ ':' ∉ (firstSegment name).data) :=
        fun h => hc ((ContainsAny_dot_colon _).2 h)
      have hc3 : ContainsAny (firstSegment name) ".:" = true := by simpa using hc
      have hc4 : ¬ ('.' ∉ (firstSegment name).data ∧ ':' ∉ (firstSegment name).data ∧
          firstSegment name ≠ "localhost" ∧ ToLower (firstSegment name) = firstSegment name) :=
        fun h => hc2 ⟨h.1, h.2.1⟩
      rw [if_neg hc4]
      simp [hc3, hi]
  · have hi : IndexRune name '/' = -1 := (IndexRune_eq_neg_one _ _).2 hs
    simp [hi, hs]

/-- C7. Default-domain rule: `addDefaultDomain name` is `"docker.io/" ++ name`
exactly when `name` has no `'/'` or its segment before the first `'/'` has
neither `'.'` nor `':'`, is not `"localhost"` and equals its own lower-casing;
in every other case it is `name` itself. -/
theorem addDefaultDomain_rule (ToLower : String → String) (name : String) :
    (addDefaultDomain ToLower name = "docker.io/" ++ name ↔ NeedsDefaultDomain ToLower name) ∧
    (addDefaultDomain ToLower name = name ↔ ¬ NeedsDefaultDomain ToLower name) := by
  rw [addDefaultDomain_eq_ite]
  by_cases h : NeedsDefaultDomain ToLower name
  · simp [h, default_domain_prefix_ne]
  · simp [h, (default_domain_prefix_ne name).symm]

theorem newImageInfo_ok (ToLower : String → String) (Parse : String → Result Reference)
    (image : String) (ref : Reference)
    (hparse : Parse (addDefaultDomain ToLower image) = .ok ref) :
    newImageInfo ToLower Parse image = .ok
      { Registry := (namedParts ref).1, Name := (namedParts ref).2.2,
        Path := (namedParts ref).2.1,
        Tag := if (match ref.tagged with | some t => t | none => "") == "" then "latest"
               else (match ref.tagged with | some t => t | none => ""),
        Digest := match ref.digested with | some d => d | none => "" } := by
  simp [newImageInfo, hparse]

/-- C8. When the default-domain-prefixed image parses, `NormalizeImageName`
returns `domain/path:tag`, followed by `@digest` exactly when a digest was
parsed, where the tag is the parsed tag if there is one and `latest`
otherwise, also for a reference with a digest and no tag; the emitted tag is
never empty; and `myrepo/app` normalizes to `docker.io/myrepo/app:latest`.
A parsed tag or digest is not the empty string (`Reference.WellFormed`, which
the reference grammar guarantees); the emitted tag is non-empty and is
`latest` for an untagged reference without that proviso. -/
theorem NormalizeImageName_rendering (ToLower : String → String)
    (Parse : String → Result Reference) (image : String) (ref : Reference)
    (hparse : Parse (addDefaultDomain ToLower image) = .ok ref) :
    (ref.WellFormed → NormalizeImageName ToLower Parse image = .ok (specRendering ref)) ∧
    (∃ info, newImageInfo ToLower Parse image = .ok info ∧
      NormalizeImageName ToLower Parse image = .ok info.String ∧
      info.Tag ≠ "" ∧ (ref.tagged = none → info.Tag = "latest") ∧
      (ref.WellFormed → info.Tag = specTag ref)) ∧
    (ToLower "myrepo" = "myrepo" →
      Parse "docker.io/myrepo/app"
        = .ok { named := some ("docker.io", "myrepo/app"), tagged := none, digested := none } →
      NormalizeImageName ToLower Parse "myrepo/app" = .ok "docker.io/myrepo/app:latest") := by
  obtain ⟨named, tagged, digested⟩ := ref
  have hinfo := newImageInfo_ok ToLower Parse image _ hparse
  refine ⟨?_, ⟨_, hinfo, ?_, ?_, ?_, ?_⟩, ?_⟩
  · intro hwf
    have htag : tagged ≠ some "" := hwf.1
    have hdig : digested ≠ some "" := hwf.2
    simp only [NormalizeImageName, hinfo, ImageInfo.String, specRendering, specTag]
    cases tagged with
    | none =>
      cases digested with
      | none => simp
      | some d =>
        have hd : d ≠ "" := fun h => hdig (by rw [h])
        simp [hd]
    | some t =>
      have ht : t ≠ "" := fun h => htag (by rw [h])
      cases digested with
      | none => simp [ht]
      | some d =>
        have hd : d ≠ "" := fun h => hdig (by rw [h])
        simp [hd, ht]
  · simp [NormalizeImageName, hinfo]
  · cases tagged with
    | none => simp
    | some t =>
      by_cases ht : t = ""
      · simp [ht]
      · simp [ht]
  · intro h
    have h2 : tagged = none := h
    subst h2
    simp
  · intro hwf
    have htag : tagged ≠ some "" := hwf.1
    cases tagged with
    | none => simp [specTag]
    | some t =>
      have ht : t ≠ "" := fun h => htag (by rw [h])
      simp [specTag, ht]
  · intro hlow hp
    have hpre : addDefaultDomain ToLower "myrepo/app" = "docker.io/myrepo/app" := by
      rw [addDefaultDomain_eq_ite]
      have hseg : firstSegment "myrepo/app" = "myrepo" := by decide
      have hneed : NeedsDefaultDomain ToLower "myrepo/app" := by
        right
        rw [hseg]
        exact ⟨by decide, by decide, by decide, hlow⟩
      rw [if_pos hneed]
      decide
    simp only [NormalizeImageName, newImageInfo, hpre, hp]
    decide

/-- Witness for C8: the sample parser on `myrepo/app`. -/
theorem NormalizeImageName_rendering_witness :
    NormalizeImageName asciiToLower sampleParse "myrepo/app"
      = .ok "docker.io/myrepo/app:latest" :=
  (NormalizeImageName_rendering asciiToLower sampleParse "myrepo/app"
    { named := some ("docker.io", "myrepo/app"), tagged := none, digested := none }
    (by decide)).2.2 (by decide) (by decide)

/-- C10. On the image `localhost:5000/app` the handler's lookup key
`strings.Split(img, ":")[0]` is `localhost`, not the normalized reference
`localhost:5000/app:latest` with its tag stripped. -/
theorem lookup_key_cut_at_registry_port :
    NormalizeImageName asciiToLower sampleParse "localhost:5000/app"
      = .ok "localhost:5000/app:latest" ∧
    SplitFirst "localhost:5000/app:latest" ':' = "localhost" ∧
    SplitFirst "localhost:5000/app:latest" ':' ≠ "localhost:5000" ++ "/" ++ "app" := by
  decide

/-! ## Theorems: committing a record -/

theorem SignDoc_ignores_signature (jsonMarshal : DefaultConfig → Bytes) (conf : DefaultConfig)
    (sig : String) :
    DefaultConfig.SignDoc jsonMarshal { conf with Signature := sig }
      = DefaultConfig.SignDoc jsonMarshal conf := by
  simp [DefaultConfig.SignDoc]

theorem add64_one_of_lt (x : Int) (hlo : minInt64 ≤ x) (hhi : x < maxInt64) :
    add64 x 1 = x + 1 := by
  unfold add64
  unfold minInt64 at hlo
  unfold maxInt64 at hhi
  omega

/-- What a successful `CommitRepositoryUpdate` went through: the head was
not content-equal, had a chain number, and signed the document of the record
with the new chain number. -/
theorem commit_success_inv {Signer PubKey Verifier : Type}
    (E : CommitEnv Signer PubKey Verifier) (conf : DefaultConfig) (oldConf : Config)
    (hhead : E.getChainHead = .ok oldConf)
    (hok : (conf.CommitRepositoryUpdate E).result = .ok ()) :
    ∃ oldNo sig,
      isSame E.jsonMarshal (some (.keypair conf)) (some oldConf) = .ok false ∧
      oldConf.GetChainNo = .ok oldNo ∧
      oldConf.Sign E.toExternals (E.jsonMarshal { conf with ChainNo := add64 oldNo 1, Signature := "" })
        = .ok sig ∧
      conf.CommitRepositoryUpdate E =
        ⟨{ conf with ChainNo := add64 oldNo 1, Signature := sig },
         [(E.FILE_NAME, { conf with ChainNo := add64 oldNo 1, Signature := sig }),
          (archivePath (add64 oldNo 1), { conf with ChainNo := add64 oldNo 1, Signature := sig })],
         .ok ()⟩ := by
  unfold DefaultConfig.CommitRepositoryUpdate at hok
  simp only [hhead] at hok
  cases hs : isSame E.jsonMarshal (some (.keypair conf)) (some oldConf) with
  | error f => simp [hs] at hok
  | ok b =>
    cases b with
    | true => simp [hs] at hok
    | false =>
      simp only [hs] at hok
      cases hn : oldConf.GetChainNo with
      | error f => simp [hn] at hok
      | ok oldNo =>
        simp only [hn, DefaultConfig.SignDoc] at hok
        cases hsig : oldConf.Sign E.toExternals
            (E.jsonMarshal { conf with ChainNo := add64 oldNo 1, Signature := "" }) with
        | error f => simp [hsig] at hok
        | ok sig =>
          simp only [hsig] at hok
          cases h1 : E.set E.FILE_NAME { conf with ChainNo := add64 oldNo 1, Signature := sig } with
          | error f => simp [h1] at hok
          | ok u1 =>
            simp only [h1] at hok
            cases h2 : E.set (archivePath (add64 oldNo 1))
                { conf with ChainNo := add64 oldNo 1, Signature := sig } with
            | error f => simp [h2] at hok
            | ok u2 =>
              refine ⟨oldNo, sig, rfl, rfl, hsig, ?_⟩
              simp [DefaultConfig.CommitRepositoryUpdate, hhead, hs, hn, DefaultConfig.SignDoc,
                hsig, h1, h2]

/-- C4. With `oldConf` the current head: if `conf` is content-equal to
`oldConf` (ignoring `Signature`) the commit fails with the no-change error,
leaves `conf` and its `ChainNo` as they were and writes nothing; and every
successful commit leaves `conf.ChainNo = oldConf.ChainNo + 1` (the `int64`
sum, which is the integer sum below the largest `int64`) and has written that
same record both to the current pointer `FILE_NAME` and to the archival path
of position `conf.ChainNo`. -/
theorem CommitRepositoryUpdate_monotone {Signer PubKey Verifier : Type}
    (E : CommitEnv Signer PubKey Verifier) (conf : DefaultConfig) (oldConf : Config)
    (hhead : E.getChainHead = .ok oldConf) :
    (ContentEqual E.jsonMarshal (.keypair conf) oldConf →
      (conf.CommitRepositoryUpdate E).result = .error (.error "config has not changed") ∧
      (conf.CommitRepositoryUpdate E).conf = conf ∧
      (conf.CommitRepositoryUpdate E).conf.ChainNo = conf.ChainNo ∧
      (conf.CommitRepositoryUpdate E).writes = []) ∧
    ((conf.CommitRepositoryUpdate E).result = .ok () →
      ¬ ContentEqual E.jsonMarshal (.keypair conf) oldConf ∧
      ∃ oldNo, oldConf.GetChainNo = .ok oldNo ∧
        (conf.CommitRepositoryUpdate E).conf.ChainNo = add64 oldNo 1 ∧
        (minInt64 ≤ oldNo → oldNo < maxInt64 →
          (conf.CommitRepositoryUpdate E).conf.ChainNo = oldNo + 1) ∧
        (conf.CommitRepositoryUpdate E).writes =
          [(E.FILE_NAME, (conf.CommitRepositoryUpdate E).conf),
           (archivePath (conf.CommitRepositoryUpdate E).conf.ChainNo,
            (conf.CommitRepositoryUpdate E).conf)]) := by
  constructor
  · intro hsame
    unfold ContentEqual at hsame
    simp [DefaultConfig.CommitRepositoryUpdate, hhead, hsame]
  · intro hok
    obtain ⟨oldNo, sig, hs, hn, _, hrun⟩ := commit_success_inv E conf oldConf hhead hok
    refine ⟨?_, oldNo, hn, ?_, ?_, ?_⟩
    · unfold ContentEqual
      rw [hs]
      simp
    · rw [hrun]
    · intro hlo hhi
      rw [hrun]
      exact add64_one_of_lt oldNo hlo hhi
    · rw [hrun]

/-- Witness for C4: committing the rotated key on top of the sample genesis
record succeeds, so the second half applies with content. -/
theorem CommitRepositoryUpdate_monotone_witness :
    (sampleUpdate.CommitRepositoryUpdate sampleCommitEnv).result = .ok () ∧
    (sampleUpdate.CommitRepositoryUpdate sampleCommitEnv).conf.ChainNo = 1 ∧
    (sampleUpdate.CommitRepositoryUpdate sampleCommitEnv).writes =
      [("sigrun-config.json", (sampleUpdate.CommitRepositoryUpdate sampleCommitEnv).conf),
       (".sigrun/1.json", (sampleUpdate.CommitRepositoryUpdate sampleCommitEnv).conf)] ∧
    (sampleGenesis.CommitRepositoryUpdate sampleCommitEnv).result
      = .error (.error "config has not changed") := by
  have h := CommitRepositoryUpdate_monotone sampleCommitEnv sampleUpdate
    (.keypair sampleGenesis) rfl
  have h0 := CommitRepositoryUpdate_monotone sampleCommitEnv sampleGenesis
    (.keypair sampleGenesis) rfl
  have hok : (sampleUpdate.CommitRepositoryUpdate sampleCommitEnv).result = .ok () := by decide
  obtain ⟨_, oldNo, hn, _, hno, hw⟩ := h.2 hok
  have hold : oldNo = 0 := by
    have : (Config.keypair sampleGenesis).GetChainNo = .ok 0 := rfl
    rw [this] at hn
    injection hn with hn
    exact hn.symm
  subst hold
  have hc := hno (by decide) (by decide)
  refine ⟨hok, hc, ?_, (h0.1 (by decide)).1⟩
  rw [hw, hc]
  rfl

/-- C3. Commit/verify round trip: when signing with the head's private key
and verifying under the head's public key agree, and base64 decoding undoes
base64 encoding, every record that `CommitRepositoryUpdate` committed on top
of the head `oldConf` is accepted by `oldConf.VerifySuccessorConfig`; the
document signed before `Signature` was filled in is the document verified
afterwards. -/
theorem commit_then_verify {Signer PubKey Verifier : Type}
    (E : CommitEnv Signer PubKey Verifier) (conf : DefaultConfig) (oldConf : Config)
    (hhead : E.getChainHead = .ok oldConf)
    (hcrypto : ∀ old, oldConf = .keypair old → ∀ password signer m sig,
      E.GetPass = .ok password → E.LoadECDSAPrivateKey old.PrivateKey password = .ok signer →
      E.SignMessage signer m = .ok sig →
      ∃ pubK verifier, E.PemToECDSAKey old.PublicKey = .ok pubK ∧
        E.LoadECDSAVerifier pubK = .ok verifier ∧ E.VerifySignature verifier sig m = .ok ())
    (hbase64 : ∀ b, E.DecodeString (E.EncodeToString b) = .ok b)
    (hcommit : (conf.CommitRepositoryUpdate E).result = .ok ()) :
    oldConf.VerifySuccessorConfig E.toExternals
        (.keypair (conf.CommitRepositoryUpdate E).conf) = .ok () ∧
    (∀ oldNo, oldConf.GetChainNo = .ok oldNo →
      (conf.CommitRepositoryUpdate E).conf.SignDoc E.jsonMarshal
        = DefaultConfig.SignDoc E.jsonMarshal { conf with ChainNo := add64 oldNo 1 }) := by
  obtain ⟨oldNo, sig, _, hn, hsig, hrun⟩ := commit_success_inv E conf oldConf hhead hcommit
  constructor
  · rw [hrun]
    cases oldConf with
    | keyless k => simp [Config.Sign] at hsig
    | keypair old =>
      simp only [Config.Sign, DefaultConfig.Sign] at hsig
      cases hp : E.GetPass with
      | error f => simp [hp] at hsig
      | ok password =>
        simp only [hp] at hsig
        cases hl : E.LoadECDSAPrivateKey old.PrivateKey password with
        | error f => simp [hl] at hsig
        | ok signer =>
          simp only [hl] at hsig
          cases hm : E.SignMessage signer
              (E.jsonMarshal { conf with ChainNo := add64 oldNo 1, Signature := "" }) with
          | error f => simp [hm] at hsig
          | ok raw =>
            simp only [hm] at hsig
            injection hsig with hsig
            obtain ⟨pubK, verifier, hk, hv, hver⟩ :=
              hcrypto old rfl password signer _ raw hp hl hm
            simp [Config.VerifySuccessorConfig, DefaultConfig.VerifySuccessorConfig,
              Config.SignDoc, DefaultConfig.SignDoc, Config.GetSignature,
              DefaultConfig.GetSignature, hk, hv, ← hsig, hbase64, hver]
  · intro oldNo2 hn2
    rw [hn] at hn2
    injection hn2 with hn2
    subst hn2
    rw [hrun]
    simp [DefaultConfig.SignDoc]

theorem sample_base64_roundtrip (b : Bytes) :
    sampleExternals.DecodeString (sampleExternals.EncodeToString b) = .ok b := by
  have hchar : ∀ n : Nat, n < 256 → (Char.ofNat n).toNat = n := by
    intro n h
    have hv : n.isValidChar := Or.inl (by omega)
    simp [Char.ofNat, hv, Char.ofNatAux, Char.toNat, UInt32.toNat]
  have hbyte : ∀ u : UInt8, UInt8.ofNat ((Char.ofNat u.toNat).toNat) = u := by
    intro u
    rw [hchar _ (UInt8.toNat_lt_size u)]
    cases u
    simp [UInt8.ofNat, UInt8.toNat]
  simp only [sampleExternals, List.map_map]
  congr 1
  induction b with
  | nil => rfl
  | cons u t ih => simp [hbyte u, ih]

/-- Witness for C3: the sample head commits the rotated key and accepts the
committed record. -/
theorem commit_then_verify_witness :
    (sampleUpdate.CommitRepositoryUpdate sampleCommitEnv).result = .ok () ∧
    (Config.keypair sampleGenesis).VerifySuccessorConfig sampleExternals
        (.keypair (sampleUpdate.CommitRepositoryUpdate sampleCommitEnv).conf) = .ok () := by
  have hok : (sampleUpdate.CommitRepositoryUpdate sampleCommitEnv).result = .ok () := by decide
  refine ⟨hok, (commit_then_verify sampleCommitEnv sampleUpdate (.keypair sampleGenesis) rfl
    ?_ sample_base64_roundtrip hok).1⟩
  intro old hold password signer m sig hp hl hm
  injection hold with hold
  subst hold
  refine ⟨"PK0", "PK0", rfl, rfl, ?_⟩
  have hpw : password = "secret" := by
    have : sampleCommitEnv.GetPass = .ok "secret" := rfl
    rw [this] at hp
    injection hp with hp
    exact hp.symm
  subst hpw
  have hs : signer = "SK0" := by
    have : sampleCommitEnv.LoadECDSAPrivateKey sampleGenesis.PrivateKey "secret" = .ok "SK0" := by
      decide
    rw [this] at hl
    injection hl with hl
    exact hl.symm
  subst hs
  have hsg : sig = sampleKeyName "SK0" ++ m := by
    have : sampleCommitEnv.SignMessage "SK0" m = .ok (sampleKeyName "SK0" ++ m) := rfl
    rw [this] at hm
    injection hm with hm
    exact hm.symm
  subst hsg
  have hname : sampleKeyName "SK0" = sampleKeyName "PK0" := by decide
  show (if sampleKeyName "SK0" ++ m = sampleKeyName "PK0" ++ m then Except.ok ()
    else Except.error (Failure.error "invalid signature")) = Except.ok ()
  rw [hname]
  simp

/-! ## Theorems: the admission decision -/

theorem guidLoop_eq_runChecks (VerifyImage : Config → String → Result Unit)
    (guidToRepo : String → Option RepoInfo) (img : String) (guids : List String) :
    guidLoop VerifyImage guidToRepo img guids
      = runChecks VerifyImage guidToRepo (guids.map (fun guid => (guid, img))) := by
  induction guids with
  | nil => rfl
  | cons guid guids ih =>
    simp only [guidLoop, List.map_cons, runChecks, ih]

theorem runChecks_append (VerifyImage : Config → String → Result Unit)
    (guidToRepo : String → Option RepoInfo) (xs ys : List (String × String)) :
    runChecks VerifyImage guidToRepo (xs ++ ys) =
      match (runChecks VerifyImage guidToRepo xs).2 with
      | some r => ((runChecks VerifyImage guidToRepo xs).1, some r)
      | none => ((runChecks VerifyImage guidToRepo xs).1 ++ (runChecks VerifyImage guidToRepo ys).1,
                 (runChecks VerifyImage guidToRepo ys).2) := by
  induction xs with
  | nil => simp [runChecks]
  | cons p xs ih =>
    obtain ⟨guid, img⟩ := p
    simp only [List.cons_append, runChecks]
    cases hg : guidToRepo guid with
    | none => simp
    | some repo =>
      simp only
      cases hv : VerifyImage (GetVerificationConfigFromVerificationInfo repo.VerificationInfo)
          img with
      | error f => cases f <;> simp
      | ok u =>
        simp only [List.append_eq]
        rw [ih]
        cases h2 : (runChecks VerifyImage guidToRepo xs).2 <;> simp

theorem runChecks_none_iff (VerifyImage : Config → String → Result Unit)
    (guidToRepo : String → Option RepoInfo) (xs : List (String × String)) :
    (runChecks VerifyImage guidToRepo xs).2 = none ↔
      ∀ p ∈ xs, Passes VerifyImage guidToRepo p := by
  induction xs with
  | nil => simp [runChecks]
  | cons p xs ih =>
    obtain ⟨guid, img⟩ := p
    simp only [runChecks, List.mem_cons, forall_eq_or_imp, Passes]
    cases hg : guidToRepo guid with
    | none => simp
    | some repo =>
      simp only
      cases hv : VerifyImage (GetVerificationConfigFromVerificationInfo repo.VerificationInfo)
          img with
      | error f =>
        cases f <;> simp [hv]
      | ok u =>
        simp only [ih, Passes]
        constructor
        · intro h
          exact ⟨⟨repo, rfl, hv⟩, h⟩
        · intro h
          exact h.2

theorem runChecks_some_not_allowed (VerifyImage : Config → String → Result Unit)
    (guidToRepo : String → Option RepoInfo) (xs : List (String × String)) (r : Response)
    (h : (runChecks VerifyImage guidToRepo xs).2 = some r) (m : Option String) :
    r ≠ .review true m := by
  induction xs with
  | nil => simp [runChecks] at h
  | cons p xs ih =>
    obtain ⟨guid, img⟩ := p
    simp only [runChecks] at h
    cases hg : guidToRepo guid with
    | none =>
      simp only [hg] at h
      injection h with h
      subst h
      simp
    | some repo =>
      simp only [hg] at h
      cases hv : VerifyImage (GetVerificationConfigFromVerificationInfo repo.VerificationInfo)
          img with
      | error f =>
        cases f with
        | error msg =>
          simp only [hv] at h
          injection h with h
          subst h
          simp
        | panic msg =>
          simp only [hv] at h
          injection h with h
          subst h
          simp
      | ok u =>
        simp only [hv] at h
        exact ih h

theorem runChecks_calls_prefix (VerifyImage : Config → String → Result Unit)
    (guidToRepo : String → Option RepoInfo) (xs : List (String × String)) :
    ∃ rest, xs = (runChecks VerifyImage guidToRepo xs).1 ++ rest := by
  induction xs with
  | nil => exact ⟨[], rfl⟩
  | cons p xs ih =>
    obtain ⟨guid, img⟩ := p
    simp only [runChecks]
    cases hg : guidToRepo guid with
    | none => exact ⟨_, rfl⟩
    | some repo =>
      simp only
      cases hv : VerifyImage (GetVerificationConfigFromVerificationInfo repo.VerificationInfo)
          img with
      | error f =>
        cases f with
        | error msg => exact ⟨xs, rfl⟩
        | panic msg => exact ⟨xs, rfl⟩
      | ok u =>
        obtain ⟨rest, hrest⟩ := ih
        refine ⟨rest, ?_⟩
        simp only [List.cons_append]
        rw [← hrest]

theorem runChecks_first_failure (VerifyImage : Config → String → Result Unit)
    (guidToRepo : String → Option RepoInfo) (pre post : List (String × String))
    (q : String × String) (msg : String)
    (hpre : ∀ p ∈ pre, Passes VerifyImage guidToRepo p)
    (hq : FailsWith VerifyImage guidToRepo q msg) :
    runChecks VerifyImage guidToRepo (pre ++ q :: post)
      = (pre ++ [q], some (.review false (some msg))) := by
  have hnone := (runChecks_none_iff VerifyImage guidToRepo pre).2 hpre
  obtain ⟨rest, hrest⟩ := runChecks_calls_prefix VerifyImage guidToRepo pre
  have hcalls : (runChecks VerifyImage guidToRepo pre).1 = pre := by
    have hall : ∀ (xs : List (String × String)),
        (runChecks VerifyImage guidToRepo xs).2 = none →
        (runChecks VerifyImage guidToRepo xs).1 = xs := by
      intro xs
      induction xs with
      | nil => intro _; rfl
      | cons p xs ih =>
        obtain ⟨guid, img⟩ := p
        simp only [runChecks]
        cases hg : guidToRepo guid with
        | none => simp
        | some repo =>
          simp only
          cases hv : VerifyImage
              (GetVerificationConfigFromVerificationInfo repo.VerificationInfo) img with
          | error f => cases f <;> simp
          | ok u =>
            intro h
            simp only at h
            simp [ih h]
    exact hall pre hnone
  obtain ⟨repo, hg, hv⟩ := hq
  obtain ⟨guid, img⟩ := q
  rw [runChecks_append, hnone, hcalls]
  simp only [runChecks]
  simp only at hg hv
  simp [hg, hv]

theorem containerLoop_eq_runChecks {Review ConfigMap : Type} (E : HandlerEnv Review ConfigMap)
    (reg : Registry) (containers : List Container)
    (hnorm : ∀ c ∈ containers, ∃ img, NormalizeImageName E.ToLower E.Parse c.Image = .ok img) :
    containerLoop E reg containers =
      ⟨(runChecks E.VerifyImage reg.guidToRepo (requiredChecks E reg containers)).1,
       match (runChecks E.VerifyImage reg.guidToRepo (requiredChecks E reg containers)).2 with
       | some r => r
       | none => .review true none⟩ := by
  induction containers with
  | nil => rfl
  | cons c cs ih =>
    obtain ⟨img, himg⟩ := hnorm c (List.mem_cons_self _ _)
    have ih2 := ih (fun c2 hc2 => hnorm c2 (List.mem_cons_of_mem _ hc2))
    simp only [containerLoop, requiredChecks, himg, guidLoop_eq_runChecks, runChecks_append]
    cases h2 : runChecks E.VerifyImage reg.guidToRepo
        ((reg.imageToGuids (SplitFirst img ':')).map (fun guid => (guid, img))) with
    | mk calls resp =>
      cases resp with
      | some r => simp
      | none => simp [ih2]

/-- C2. For a request all of whose images normalize, the decision loop
answers `allowed = true` exactly when `VerifyImage` succeeds for every GUID
that `imageToGuids` lists for each container's lookup key. The calls made
are an initial part of those pairs in request and list order, so a request
whose keys map to no GUID is allowed with no call, and an image registered
under several GUIDs is allowed only if every one of them verifies it. At the
first pair whose `VerifyImage` returns an error the answer is
`allowed = false` with that error's text as message, and that call is the
last one made. -/
theorem admission_decision {Review ConfigMap : Type} (E : HandlerEnv Review ConfigMap)
    (reg : Registry) (containers : List Container)
    (hnorm : ∀ c ∈ containers, ∃ img, NormalizeImageName E.ToLower E.Parse c.Image = .ok img) :
    ((containerLoop E reg containers).response = .review true none ↔
      ∀ p ∈ requiredChecks E reg containers, Passes E.VerifyImage reg.guidToRepo p) ∧
    (∀ m, (containerLoop E reg containers).response = .review true m → m = none) ∧
    (∃ rest, requiredChecks E reg containers = (containerLoop E reg containers).calls ++ rest) ∧
    (requiredChecks E reg containers = [] →
      containerLoop E reg containers = ⟨[], .review true none⟩) ∧
    (∀ pre q post msg, requiredChecks E reg containers = pre ++ q :: post →
      (∀ p ∈ pre, Passes E.VerifyImage reg.guidToRepo p) →
      FailsWith E.VerifyImage reg.guidToRepo q msg →
      containerLoop E reg containers = ⟨pre ++ [q], .review false (some msg)⟩) := by
  have heq := containerLoop_eq_runChecks E reg containers hnorm
  refine ⟨?_, ?_, ?_, ?_, ?_⟩
  · rw [← runChecks_none_iff, heq]
    cases h2 : (runChecks E.VerifyImage reg.guidToRepo (requiredChecks E reg containers)).2 with
    | none => simp
    | some r =>
      simp only [false_iff, reduceCtorEq]
      exact iff_false_intro (runChecks_some_not_allowed _ _ _ r h2 none)
  · intro m hm
    rw [heq] at hm
    cases h2 : (runChecks E.VerifyImage reg.guidToRepo (requiredChecks E reg containers)).2 with
    | none =>
      simp only [h2] at hm
      injection hm with _ hm
      exact hm.symm
    | some r =>
      simp only [h2] at hm
      exact absurd hm (runChecks_some_not_allowed _ _ _ r h2 m)
  · rw [heq]
    exact runChecks_calls_prefix _ _ _
  · intro hnil
    rw [heq, hnil]
    rfl
  · intro pre q post msg hsplit hpre hq
    rw [heq, hsplit, runChecks_first_failure _ _ pre post q msg hpre hq]

/-- Witness for C2: the sample image is registered under two GUIDs, the first
verifies it and the second does not, so the request is denied with the second
GUID's error after exactly two calls. -/
theorem admission_decision_witness :
    containerLoop sampleHandlerEnv sampleRegistry [⟨"myrepo/app"⟩] =
      ⟨[("guid-a", "docker.io/myrepo/app:latest"), ("guid-b", "docker.io/myrepo/app:latest")],
       .review false (some "invalid signature")⟩ :=
  (admission_decision sampleHandlerEnv sampleRegistry [⟨"myrepo/app"⟩]
    (by
      intro c hc
      rw [List.mem_singleton] at hc
      subst hc
      exact ⟨"docker.io/myrepo/app:latest", by decide⟩)).2.2.2.2
    [("guid-a", "docker.io/myrepo/app:latest")] ("guid-b", "docker.io/myrepo/app:latest") []
    "invalid signature" (by decide)
    (by
      intro p hp
      rw [List.mem_singleton] at hp
      subst hp
      exact ⟨⟨{ Name := "a", Mode := "keypair", ChainNo := 0, PublicKey := "PK0",
                Maintainers := [], Images := ["docker.io/myrepo/app"] }⟩, by decide, by decide⟩)
    ⟨⟨{ Name := "b", Mode := "keypair", ChainNo := 0, PublicKey := "PK1",
        Maintainers := [], Images := ["docker.io/myrepo/app"] }⟩, by decide, by decide⟩

theorem failureResponse_not_allowed (f : Failure) (m : Option String) :
    failureResponse f ≠ .review true m := by
  cases f <;> simp [failureResponse, handleErr]

theorem containerLoop_append {Review ConfigMap : Type} (E : HandlerEnv Review ConfigMap)
    (reg : Registry) (pre rest : List Container)
    (hpre : (containerLoop E reg pre).response = .review true none) :
    containerLoop E reg (pre ++ rest) =
      ⟨(containerLoop E reg pre).calls ++ (containerLoop E reg rest).calls,
       (containerLoop E reg rest).response⟩ := by
  induction pre with
  | nil => simp [containerLoop]
  | cons c cs ih =>
    simp only [List.cons_append, containerLoop] at hpre ⊢
    cases hn : NormalizeImageName E.ToLower E.Parse c.Image with
    | error f =>
      simp only [hn] at hpre
      exact absurd hpre (failureResponse_not_allowed f none)
    | ok img =>
      simp only [hn] at hpre ⊢
      cases hg : guidLoop E.VerifyImage reg.guidToRepo img
          (reg.imageToGuids (SplitFirst img ':')) with
      | mk calls resp =>
        cases resp with
        | some r =>
          simp only [hg] at hpre
          have h2 : (runChecks E.VerifyImage reg.guidToRepo
              ((reg.imageToGuids (SplitFirst img ':')).map (fun guid => (guid, img)))).2
              = some r := by
            rw [← guidLoop_eq_runChecks, hg]
          exact absurd hpre (runChecks_some_not_allowed _ _ _ r h2 none)
        | none =>
          simp only [hg] at hpre ⊢
          simp only [List.append_eq]
          rw [ih hpre]
          simp

theorem containerLoop_not_allowed {Review ConfigMap : Type} (E : HandlerEnv Review ConfigMap)
    (reg : Registry) (containers : List Container)
    (hbad : ∃ c ∈ containers, ∃ f, NormalizeImageName E.ToLower E.Parse c.Image = .error f)
    (m : Option String) :
    (containerLoop E reg containers).response ≠ .review true m := by
  induction containers with
  | nil =>
    obtain ⟨c, hc, _⟩ := hbad
    simp at hc
  | cons c cs ih =>
    simp only [containerLoop]
    cases hn : NormalizeImageName E.ToLower E.Parse c.Image with
    | error f => exact failureResponse_not_allowed f m
    | ok img =>
      simp only
      cases hg : guidLoop E.VerifyImage reg.guidToRepo img
          (reg.imageToGuids (SplitFirst img ':')) with
      | mk calls resp =>
        cases resp with
        | some r =>
          have h2 : (runChecks E.VerifyImage reg.guidToRepo
              ((reg.imageToGuids (SplitFirst img ':')).map (fun guid => (guid, img)))).2
              = some r := by
            rw [← guidLoop_eq_runChecks, hg]
          exact runChecks_some_not_allowed _ _ _ r h2 m
        | none =>
          simp only
          apply ih
          obtain ⟨c2, hc2, f, hf⟩ := hbad
          rcases List.mem_cons.1 hc2 with h | h
          · subst h
            rw [hn] at hf
            cases hf
          · exact ⟨c2, h, f, hf⟩

/-- C5, the claim as stated fails here: the image `My Bad` does not
normalize, and the handler answers with status 500 and the error text as a
plain body, which is not an admission review with `allowed = false`. -/
theorem normalization_error_is_not_a_denial :
    NormalizeImageName asciiToLower sampleParse "My Bad"
      = .error (.error "bad image: docker.io/My Bad: invalid reference format") ∧
    validate sampleHandlerEnv "My Bad"
      = ⟨[], .plain 500 "bad image: docker.io/My Bad: invalid reference format"⟩ ∧
    (validate sampleHandlerEnv "My Bad").response
      ≠ .review false (some "bad image: docker.io/My Bad: invalid reference format") := by
  decide

/-- C5, amended. An error returned by the request decoder, the cache, the
config-map parser, the container extraction, or the normalization of a
container's image (the containers before it having been let through) is
answered by `handleErr`: status 500 with the error text verbatim as body and
no admission review. A request with a container whose image does not
normalize is never answered `allowed = true`. -/
theorem error_paths_answer_500 {Review ConfigMap : Type} (E : HandlerEnv Review ConfigMap)
    (body : String) :
    (∀ e, E.Decode body = .error (.error e) → validate E body = ⟨[], .plain 500 e⟩) ∧
    (∀ req e, E.Decode body = .ok req → E.cacheGet = .error (.error e) →
      validate E body = ⟨[], .plain 500 e⟩) ∧
    (∀ req configMap e, E.Decode body = .ok req → E.cacheGet = .ok configMap →
      E.ParseSigrunConfigMap configMap = .error (.error e) →
      validate E body = ⟨[], .plain 500 e⟩) ∧
    (∀ req configMap reg e, E.Decode body = .ok req → E.cacheGet = .ok configMap →
      E.ParseSigrunConfigMap configMap = .ok reg →
      E.GetContainersFromResource req = .error (.error e) →
      validate E body = ⟨[], .plain 500 e⟩) ∧
    (∀ req configMap reg pre c post e, E.Decode body = .ok req → E.cacheGet = .ok configMap →
      E.ParseSigrunConfigMap configMap = .ok reg →
      E.GetContainersFromResource req = .ok (pre ++ c :: post) →
      (containerLoop E reg pre).response = .review true none →
      NormalizeImageName E.ToLower E.Parse c.Image = .error (.error e) →
      validate E body = ⟨(containerLoop E reg pre).calls, .plain 500 e⟩) ∧
    (∀ req configMap reg containers, E.Decode body = .ok req → E.cacheGet = .ok configMap →
      E.ParseSigrunConfigMap configMap = .ok reg →
      E.GetContainersFromResource req = .ok containers →
      (∃ c ∈ containers, ∃ f, NormalizeImageName E.ToLower E.Parse c.Image = .error f) →
      ∀ m, (validate E body).response ≠ .review true m) := by
  refine ⟨?_, ?_, ?_, ?_, ?_, ?_⟩
  · intro e h
    simp [validate, h, failureResponse, handleErr]
  · intro req e h1 h2
    simp [validate, h1, h2, failureResponse, handleErr]
  · intro req configMap e h1 h2 h3
    simp [validate, h1, h2, h3, failureResponse, handleErr]
  · intro req configMap reg e h1 h2 h3 h4
    simp [validate, h1, h2, h3, h4, failureResponse, handleErr]
  · intro req configMap reg pre c post e h1 h2 h3 h4 hpre hn
    simp only [validate, h1, h2, h3, h4]
    rw [containerLoop_append E reg pre (c :: post) hpre]
    simp [containerLoop, hn, failureResponse, handleErr]
  · intro req configMap reg containers h1 h2 h3 h4 hbad m
    simp only [validate, h1, h2, h3, h4]
    exact containerLoop_not_allowed E reg containers hbad m

/-- Witness for C5, amended: a request whose first container passes with no
registered GUID and whose second container has an image that does not
normalize is answered with status 500 and the error text. -/
theorem error_paths_answer_500_witness :
    validate sampleHandlerEnv "localhost:5000/app,My Bad"
      = ⟨[], .plain 500 "bad image: docker.io/My Bad: invalid reference format"⟩ :=
  (error_paths_answer_500 sampleHandlerEnv "localhost:5000/app,My Bad").2.2.2.2.1
    ["localhost:5000/app", "My Bad"] () sampleRegistry [⟨"localhost:5000/app"⟩] ⟨"My Bad"⟩ []
    "bad image: docker.io/My Bad: invalid reference format"
    (by decide) rfl rfl (by decide) (by decide) (by decide)

/-! ## Theorems: chain verification -/

/-- The one step of `chainLoop`, by cases on what happens in it. -/
theorem chainLoop_cases (E : ChainEnv) (newConf : Config) (fuel : Nat) (cur : Int)
    (prev : Config) (curr : Option Config) :
    (∃ f, newConf.GetChainNo = .error f ∧
      chainLoop E newConf fuel cur prev curr = ⟨[], some (.error f)⟩) ∨
    (∃ newNo, newConf.GetChainNo = .ok newNo ∧ ¬ cur ≤ newNo ∧
      chainLoop E newConf fuel cur prev curr
        = ⟨[], some (chainHeadCheck E.jsonMarshal curr newConf)⟩) ∨
    (∃ newNo, newConf.GetChainNo = .ok newNo ∧ cur ≤ newNo ∧ fuel = 0 ∧
      chainLoop E newConf fuel cur prev curr = ⟨[], none⟩) ∨
    (∃ newNo fuel1 f, newConf.GetChainNo = .ok newNo ∧ cur ≤ newNo ∧ fuel = fuel1 + 1 ∧
      E.fetch cur = .error f ∧
      chainLoop E newConf fuel cur prev curr = ⟨[.fetch cur], some (.error f)⟩) ∨
    (∃ newNo fuel1 c f, newConf.GetChainNo = .ok newNo ∧ cur ≤ newNo ∧ fuel = fuel1 + 1 ∧
      E.fetch cur = .ok c ∧ E.VerifySuccessorConfig prev c = .error f ∧
      chainLoop E newConf fuel cur prev curr
        = ⟨[.fetch cur, .check prev c], some (.error f)⟩) ∨
    (∃ newNo fuel1 c f, newConf.GetChainNo = .ok newNo ∧ cur ≤ newNo ∧ fuel = fuel1 + 1 ∧
      E.fetch cur = .ok c ∧ E.VerifySuccessorConfig prev c = .ok () ∧
      c.GetChainNo = .error f ∧
      chainLoop E newConf fuel cur prev curr
        = ⟨[.fetch cur, .check prev c], some (.error f)⟩) ∨
    (∃ newNo fuel1 c k, newConf.GetChainNo = .ok newNo ∧ cur ≤ newNo ∧ fuel = fuel1 + 1 ∧
      E.fetch cur = .ok c ∧ E.VerifySuccessorConfig prev c = .ok () ∧
      c.GetChainNo = .ok k ∧
      chainLoop E newConf fuel cur prev curr
        = ⟨.fetch cur :: .check prev c ::
            (chainLoop E newConf fuel1 (add64 k 1) c (some c)).events,
           (chainLoop E newConf fuel1 (add64 k 1) c (some c)).result⟩) := by
  cases hn : newConf.GetChainNo with
  | error f =>
    left
    refine ⟨f, rfl, ?_⟩
    cases fuel <;> simp [chainLoop, hn]
  | ok newNo =>
    right
    by_cases hle : cur ≤ newNo
    · right
      cases fuel with
      | zero =>
        left
        refine ⟨newNo, rfl, hle, rfl, ?_⟩
        simp [chainLoop, hn, hle]
      | succ fuel1 =>
        right
        cases hf : E.fetch cur with
        | error f =>
          left
          refine ⟨newNo, fuel1, f, rfl, hle, rfl, rfl, ?_⟩
          simp [chainLoop, hn, hle, hf]
        | ok c =>
          right
          cases hv : E.VerifySuccessorConfig prev c with
          | error f =>
            left
            refine ⟨newNo, fuel1, c, f, rfl, hle, rfl, rfl, hv, ?_⟩
            simp [chainLoop, hn, hle, hf, hv]
          | ok u =>
            right
            cases hk : c.GetChainNo with
            | error f =>
              left
              refine ⟨newNo, fuel1, c, f, rfl, hle, rfl, rfl, hv, hk, ?_⟩
              simp [chainLoop, hn, hle, hf, hv, hk]
            | ok k =>
              right
              refine ⟨newNo, fuel1, c, k, rfl, hle, rfl, rfl, hv, hk, ?_⟩
              simp [chainLoop, hn, hle, hf, hv, hk]
    · left
      refine ⟨newNo, rfl, hle, ?_⟩
      cases fuel <;> simp [chainLoop, hn, hle]

theorem not_contentEqual_of_right_panics (M : DefaultConfig → Bytes) (c newConf : Config)
    (f : Failure) (h : newConf.GetChainNo = .error f) : ¬ ContentEqual M c newConf := by
  cases newConf with
  | keypair n => simp [Config.GetChainNo] at h
  | keyless n =>
    cases c with
    | keypair d => simp [ContentEqual, isSame, Config.SignDoc, DefaultConfig.SignDoc]
    | keyless d => simp [ContentEqual, isSame, Config.SignDoc]

theorem not_contentEqual_of_left_panics (M : DefaultConfig → Bytes) (c newConf : Config)
    (f : Failure) (h : c.GetChainNo = .error f) : ¬ ContentEqual M c newConf := by
  cases c with
  | keypair n => simp [Config.GetChainNo] at h
  | keyless n => simp [ContentEqual, isSame, Config.SignDoc]

theorem chainHeadCheck_ok_iff (M : DefaultConfig → Bytes) (curr : Option Config)
    (newConf : Config) :
    chainHeadCheck M curr newConf = .ok () ↔
      ∃ last, curr = some last ∧ ContentEqual M last newConf := by
  unfold chainHeadCheck ContentEqual
  cases curr with
  | none => simp [isSame]
  | some c =>
    cases h : isSame M (some c) (some newConf) with
    | error f => simp [h]
    | ok b => cases b <;> simp [h]

/-- Success of the loop, read off the events of a finished run. -/
theorem chainLoop_success_iff (E : ChainEnv) (newConf : Config) (fuel : Nat) :
    ∀ (cur : Int) (prev : Config) (curr : Option Config) (r : Result Unit),
    (chainLoop E newConf fuel cur prev curr).result = some r →
    (r = .ok () ↔
      (∀ n ∈ fetchedPositions (chainLoop E newConf fuel cur prev curr).events,
        ∃ c, E.fetch n = .ok c) ∧
      List.Chain (Accepts E) prev
        (fetchedRecords E (chainLoop E newConf fuel cur prev curr).events) ∧
      ∃ last, (curr.toList ++
          fetchedRecords E (chainLoop E newConf fuel cur prev curr).events).getLast? = some last ∧
        ContentEqual E.jsonMarshal last newConf) := by
  induction fuel with
  | zero =>
    intro cur prev curr r hr
    rcases chainLoop_cases E newConf 0 cur prev curr with
      ⟨f, hn, h⟩ | ⟨newNo, hn, hle, h⟩ | ⟨newNo, hn, hle, h0, h⟩ |
      ⟨newNo, fuel1, f, hn, hle, h0, hf, h⟩ | ⟨newNo, fuel1, c, f, hn, hle, h0, hf, hv, h⟩ |
      ⟨newNo, fuel1, c, f, hn, hle, h0, hf, hv, hk, h⟩ |
      ⟨newNo, fuel1, c, k, hn, hle, h0, hf, hv, hk, h⟩
    · rw [h] at hr ⊢
      simp only [Option.some.injEq] at hr
      subst hr
      simp only [fetchedPositions, fetchedRecords, List.append_nil, reduceCtorEq, false_iff]
      rintro ⟨_, _, last, _, hce⟩
      exact not_contentEqual_of_right_panics _ _ _ f hn hce
    · rw [h] at hr ⊢
      simp only [Option.some.injEq] at hr
      subst hr
      rw [chainHeadCheck_ok_iff]
      cases curr <;> simp [fetchedPositions, fetchedRecords]
    · rw [h] at hr
      simp at hr
    · omega
    · omega
    · omega
    · omega
  | succ fuel0 ih =>
    intro cur prev curr r hr
    rcases chainLoop_cases E newConf (fuel0 + 1) cur prev curr with
      ⟨f, hn, h⟩ | ⟨newNo, hn, hle, h⟩ | ⟨newNo, hn, hle, h0, h⟩ |
      ⟨newNo, fuel1, f, hn, hle, h0, hf, h⟩ | ⟨newNo, fuel1, c, f, hn, hle, h0, hf, hv, h⟩ |
      ⟨newNo, fuel1, c, f, hn, hle, h0, hf, hv, hk, h⟩ |
      ⟨newNo, fuel1, c, k, hn, hle, h0, hf, hv, hk, h⟩
    · rw [h] at hr ⊢
      simp only [Option.some.injEq] at hr
      subst hr
      simp only [fetchedPositions, fetchedRecords, List.append_nil, reduceCtorEq, false_iff]
      rintro ⟨_, _, last, _, hce⟩
      exact not_contentEqual_of_right_panics _ _ _ f hn hce
    · rw [h] at hr ⊢
      simp only [Option.some.injEq] at hr
      subst hr
      rw [chainHeadCheck_ok_iff]
      cases curr <;> simp [fetchedPositions, fetchedRecords]
    · omega
    · rw [h] at hr ⊢
      simp only [Option.some.injEq] at hr
      subst hr
      simp only [fetchedPositions, reduceCtorEq, false_iff]
      rintro ⟨hall, _⟩
      obtain ⟨c, hc⟩ := hall cur (List.mem_singleton_self _)
      rw [hf] at hc
      cases hc
    · rw [h] at hr ⊢
      simp only [Option.some.injEq] at hr
      subst hr
      simp only [fetchedRecords, hf, reduceCtorEq, false_iff]
      rintro ⟨_, hchain, _⟩
      have hacc : Accepts E prev c := (List.chain_cons.1 hchain).1
      unfold Accepts at hacc
      rw [hv] at hacc
      cases hacc
    · rw [h] at hr ⊢
      simp only [Option.some.injEq] at hr
      subst hr
      simp only [fetchedRecords, hf, reduceCtorEq, false_iff]
      rintro ⟨_, _, last, hlast, hce⟩
      rw [List.getLast?_append_cons] at hlast
      simp only [List.getLast?_singleton, Option.some.injEq] at hlast
      subst hlast
      exact not_contentEqual_of_left_panics _ _ _ f hk hce
    · have hfuel : fuel1 = fuel0 := by omega
      subst hfuel
      rw [h] at hr ⊢
      simp only at hr
      rw [ih (add64 k 1) c (some c) r hr]
      simp only [fetchedPositions, fetchedRecords, hf, List.mem_cons, forall_eq_or_imp,
        List.chain_cons, Option.toList_some, List.singleton_append]
      rw [List.getLast?_append_cons]
      constructor
      · rintro ⟨h1, h2, h3⟩
        exact ⟨⟨⟨c, rfl⟩, h1⟩, ⟨hv, h2⟩, h3⟩
      · rintro ⟨⟨_, h1⟩, ⟨_, h2⟩, h3⟩
        exact ⟨h1, h2, h3⟩

/-- The checks of a run are those of each fetched record against the record
fetched before it, the first against `prev`. -/
theorem chainLoop_checkedPairs (E : ChainEnv) (newConf : Config) (fuel : Nat) :
    ∀ (cur : Int) (prev : Config) (curr : Option Config),
    checkedPairs (chainLoop E newConf fuel cur prev curr).events =
      List.zip (prev :: fetchedRecords E (chainLoop E newConf fuel cur prev curr).events)
        (fetchedRecords E (chainLoop E newConf fuel cur prev curr).events) := by
  induction fuel with
  | zero =>
    intro cur prev curr
    rcases chainLoop_cases E newConf 0 cur prev curr with
      ⟨f, hn, h⟩ | ⟨newNo, hn, hle, h⟩ | ⟨newNo, hn, hle, h0, h⟩ |
      ⟨newNo, fuel1, f, hn, hle, h0, hf, h⟩ | ⟨newNo, fuel1, c, f, hn, hle, h0, hf, hv, h⟩ |
      ⟨newNo, fuel1, c, f, hn, hle, h0, hf, hv, hk, h⟩ |
      ⟨newNo, fuel1, c, k, hn, hle, h0, hf, hv, hk, h⟩
    · rw [h]; simp [checkedPairs, fetchedRecords]
    · rw [h]; simp [checkedPairs, fetchedRecords]
    · rw [h]; simp [checkedPairs, fetchedRecords]
    · omega
    · omega
    · omega
    · omega
  | succ fuel0 ih =>
    intro cur prev curr
    rcases chainLoop_cases E newConf (fuel0 + 1) cur prev curr with
      ⟨f, hn, h⟩ | ⟨newNo, hn, hle, h⟩ | ⟨newNo, hn, hle, h0, h⟩ |
      ⟨newNo, fuel1, f, hn, hle, h0, hf, h⟩ | ⟨newNo, fuel1, c, f, hn, hle, h0, hf, hv, h⟩ |
      ⟨newNo, fuel1, c, f, hn, hle, h0, hf, hv, hk, h⟩ |
      ⟨newNo, fuel1, c, k, hn, hle, h0, hf, hv, hk, h⟩
    · rw [h]; simp [checkedPairs, fetchedRecords]
    · rw [h]; simp [checkedPairs, fetchedRecords]
    · rw [h]; simp [checkedPairs, fetchedRecords]
    · rw [h]; simp [checkedPairs, fetchedRecords, hf]
    · rw [h]; simp [checkedPairs, fetchedRecords, hf]
    · rw [h]; simp [checkedPairs, fetchedRecords, hf]
    · have hfuel : fuel1 = fuel0 := by omega
      subst hfuel
      rw [h]
      simp only [checkedPairs, fetchedRecords, hf, List.zip_cons_cons]
      rw [ih (add64 k 1) c (some c)]

/-- Fail-fast: an event of a run that failed is the last event of the run,
and its failure is what the run returned. -/
theorem chainLoop_fail_fast (E : ChainEnv) (newConf : Config) (fuel : Nat) :
    ∀ (cur : Int) (prev : Config) (curr : Option Config)
      (pre : List Event) (e : Event) (post : List Event) (f : Failure),
    (chainLoop E newConf fuel cur prev curr).events = pre ++ e :: post →
    e.FailsWith E f →
    post = [] ∧ (chainLoop E newConf fuel cur prev curr).result = some (.error f) := by
  induction fuel with
  | zero =>
    intro cur prev curr pre e post f hev hfail
    rcases chainLoop_cases E newConf 0 cur prev curr with
      ⟨f, hn, h⟩ | ⟨newNo, hn, hle, h⟩ | ⟨newNo, hn, hle, h0, h⟩ |
      ⟨newNo, fuel1, f, hn, hle, h0, hf, h⟩ | ⟨newNo, fuel1, c, f, hn, hle, h0, hf, hv, h⟩ |
      ⟨newNo, fuel1, c, f, hn, hle, h0, hf, hv, hk, h⟩ |
      ⟨newNo, fuel1, c, k, hn, hle, h0, hf, hv, hk, h⟩
    · rw [h] at hev; simp at hev
    · rw [h] at hev; simp at hev
    · rw [h] at hev; simp at hev
    · omega
    · omega
    · omega
    · omega
  | succ fuel0 ih =>
    intro cur prev curr pre e post f hev hfail
    rcases chainLoop_cases E newConf (fuel0 + 1) cur prev curr with
      ⟨f1, hn, h⟩ | ⟨newNo, hn, hle, h⟩ | ⟨newNo, hn, hle, h0, h⟩ |
      ⟨newNo, fuel1, f1, hn, hle, h0, hf, h⟩ | ⟨newNo, fuel1, c, f1, hn, hle, h0, hf, hv, h⟩ |
      ⟨newNo, fuel1, c, f1, hn, hle, h0, hf, hv, hk, h⟩ |
      ⟨newNo, fuel1, c, k, hn, hle, h0, hf, hv, hk, h⟩
    · rw [h] at hev; simp at hev
    · rw [h] at hev; simp at hev
    · rw [h] at hev; simp at hev
    · rw [h] at hev ⊢
      simp only at hev
      cases pre with
      | nil =>
        simp only [List.nil_append, List.cons.injEq] at hev
        obtain ⟨he, hpost⟩ := hev
        subst he
        simp only [Event.FailsWith] at hfail
        rw [hf] at hfail
        injection hfail with hfail
        subst hfail
        exact ⟨hpost.symm, rfl⟩
      | cons x pre1 =>
        simp at hev
    · rw [h] at hev ⊢
      simp only at hev
      cases pre with
      | nil =>
        simp only [List.nil_append, List.cons.injEq] at hev
        obtain ⟨he, _⟩ := hev
        subst he
        simp only [Event.FailsWith] at hfail
        rw [hf] at hfail
        cases hfail
      | cons x pre1 =>
        cases pre1 with
        | nil =>
          simp only [List.cons_append, List.nil_append, List.cons.injEq] at hev
          obtain ⟨_, he, hpost⟩ := hev
          subst he
          simp only [Event.FailsWith] at hfail
          rw [hv] at hfail
          injection hfail with hfail
          subst hfail
          exact ⟨hpost.symm, rfl⟩
        | cons y pre2 =>
          simp at hev
    · rw [h] at hev ⊢
      simp only at hev
      cases pre with
      | nil =>
        simp only [List.nil_append, List.cons.injEq] at hev
        obtain ⟨he, _⟩ := hev
        subst he
        simp only [Event.FailsWith] at hfail
        rw [hf] at hfail
        cases hfail
      | cons x pre1 =>
        cases pre1 with
        | nil =>
          simp only [List.cons_append, List.nil_append, List.cons.injEq] at hev
          obtain ⟨_, he, hpost⟩ := hev
          subst he
          simp only [Event.FailsWith] at hfail
          rw [hv] at hfail
          cases hfail
        | cons y pre2 =>
          simp at hev
    · have hfuel : fuel1 = fuel0 := by omega
      subst hfuel
      rw [h] at hev ⊢
      simp only at hev ⊢
      cases pre with
      | nil =>
        simp only [List.nil_append, List.cons.injEq] at hev
        obtain ⟨he, _⟩ := hev
        subst he
        simp only [Event.FailsWith] at hfail
        rw [hf] at hfail
        cases hfail
      | cons x pre1 =>
        cases pre1 with
        | nil =>
          simp only [List.cons_append, List.nil_append, List.cons.injEq] at hev
          obtain ⟨_, he, _⟩ := hev
          subst he
          simp only [Event.FailsWith] at hfail
          rw [hv] at hfail
          cases hfail
        | cons y pre2 =>
          simp only [List.cons_append, List.cons.injEq] at hev
          obtain ⟨_, _, hev⟩ := hev
          exact ih (add64 k 1) c (some c) pre2 e post f hev hfail

/-- A finished run is the same run with any larger bound on the iterations. -/
theorem chainLoop_fuel_mono (E : ChainEnv) (newConf : Config) (fuel : Nat) :
    ∀ (cur : Int) (prev : Config) (curr : Option Config) (fuel2 : Nat),
    (chainLoop E newConf fuel cur prev curr).result ≠ none → fuel ≤ fuel2 →
    chainLoop E newConf fuel2 cur prev curr = chainLoop E newConf fuel cur prev curr := by
  induction fuel with
  | zero =>
    intro cur prev curr fuel2 hr hle2
    rcases chainLoop_cases E newConf 0 cur prev curr with
      ⟨f, hn, h⟩ | ⟨newNo, hn, hle, h⟩ | ⟨newNo, hn, hle, h0, h⟩ |
      ⟨newNo, fuel1, f, hn, hle, h0, hf, h⟩ | ⟨newNo, fuel1, c, f, hn, hle, h0, hf, hv, h⟩ |
      ⟨newNo, fuel1, c, f, hn, hle, h0, hf, hv, hk, h⟩ |
      ⟨newNo, fuel1, c, k, hn, hle, h0, hf, hv, hk, h⟩
    · rw [h]
      cases fuel2 <;> simp [chainLoop, hn]
    · rw [h]
      cases fuel2 <;> simp [chainLoop, hn, hle]
    · rw [h] at hr; simp at hr
    · omega
    · omega
    · omega
    · omega
  | succ fuel0 ih =>
    intro cur prev curr fuel2 hr hle2
    obtain ⟨fuel3, rfl⟩ : ∃ fuel3, fuel2 = fuel3 + 1 := ⟨fuel2 - 1, by omega⟩
    rcases chainLoop_cases E newConf (fuel0 + 1) cur prev curr with
      ⟨f, hn, h⟩ | ⟨newNo, hn, hle, h⟩ | ⟨newNo, hn, hle, h0, h⟩ |
      ⟨newNo, fuel1, f, hn, hle, h0, hf, h⟩ | ⟨newNo, fuel1, c, f, hn, hle, h0, hf, hv, h⟩ |
      ⟨newNo, fuel1, c, f, hn, hle, h0, hf, hv, hk, h⟩ |
      ⟨newNo, fuel1, c, k, hn, hle, h0, hf, hv, hk, h⟩
    · rw [h]; simp [chainLoop, hn]
    · rw [h]; simp [chainLoop, hn, hle]
    · omega
    · rw [h]; simp [chainLoop, hn, hle, hf]
    · rw [h]; simp [chainLoop, hn, hle, hf, hv]
    · rw [h]; simp [chainLoop, hn, hle, hf, hv, hk]
    · have hfuel : fuel1 = fuel0 := by omega
      subst hfuel
      rw [h] at hr ⊢
      simp only at hr
      have hrec := ih (add64 k 1) c (some c) fuel3 hr (by omega)
      simp [chainLoop, hn, hle, hf, hv, hk, hrec]

/-- A run that has not returned used every allowed iteration, each of its
fetches and checks succeeded, and the position it turns to next is still not
beyond `newConf.ChainNo`. -/
theorem chainLoop_pending (E : ChainEnv) (newConf : Config) (fuel : Nat) :
    ∀ (cur : Int) (prev : Config) (curr : Option Config),
    (chainLoop E newConf fuel cur prev curr).result = none →
    (fetchedPositions (chainLoop E newConf fuel cur prev curr).events).length = fuel ∧
    (∀ e ∈ (chainLoop E newConf fuel cur prev curr).events, e.Succeeds E) ∧
    ∃ newNo next, newConf.GetChainNo = .ok newNo ∧
      positionAfter cur (fetchedRecords E (chainLoop E newConf fuel cur prev curr).events)
        = .ok next ∧
      next ≤ newNo := by
  induction fuel with
  | zero =>
    intro cur prev curr hr
    rcases chainLoop_cases E newConf 0 cur prev curr with
      ⟨f, hn, h⟩ | ⟨newNo, hn, hle, h⟩ | ⟨newNo, hn, hle, h0, h⟩ |
      ⟨newNo, fuel1, f, hn, hle, h0, hf, h⟩ | ⟨newNo, fuel1, c, f, hn, hle, h0, hf, hv, h⟩ |
      ⟨newNo, fuel1, c, f, hn, hle, h0, hf, hv, hk, h⟩ |
      ⟨newNo, fuel1, c, k, hn, hle, h0, hf, hv, hk, h⟩
    · rw [h] at hr; simp at hr
    · rw [h] at hr; simp at hr
    · rw [h]
      refine ⟨rfl, ?_, newNo, cur, hn, rfl, hle⟩
      intro e he
      simp at he
    · omega
    · omega
    · omega
    · omega
  | succ fuel0 ih =>
    intro cur prev curr hr
    rcases chainLoop_cases E newConf (fuel0 + 1) cur prev curr with
      ⟨f, hn, h⟩ | ⟨newNo, hn, hle, h⟩ | ⟨newNo, hn, hle, h0, h⟩ |
      ⟨newNo, fuel1, f, hn, hle, h0, hf, h⟩ | ⟨newNo, fuel1, c, f, hn, hle, h0, hf, hv, h⟩ |
      ⟨newNo, fuel1, c, f, hn, hle, h0, hf, hv, hk, h⟩ |
      ⟨newNo, fuel1, c, k, hn, hle, h0, hf, hv, hk, h⟩
    · rw [h] at hr; simp at hr
    · rw [h] at hr; simp at hr
    · omega
    · rw [h] at hr; simp at hr
    · rw [h] at hr; simp at hr
    · rw [h] at hr; simp at hr
    · have hfuel : fuel1 = fuel0 := by omega
      subst hfuel
      rw [h] at hr ⊢
      simp only at hr
      obtain ⟨hlen, hall, newNo2, next, hn2, hnext, hle2⟩ := ih (add64 k 1) c (some c) hr
      refine ⟨?_, ?_, newNo2, next, hn2, ?_, hle2⟩
      · simp [fetchedPositions, hlen]
      · intro e he
        simp only [List.mem_cons] at he
        rcases he with rfl | rfl | he
        · exact ⟨c, hf⟩
        · exact hv
        · exact hall e he
      · simp only [fetchedRecords, hf]
        cases hrecs : fetchedRecords E (chainLoop E newConf fuel1 (add64 k 1) c (some c)).events with
        | nil =>
          rw [hrecs] at hnext
          simp only [positionAfter, List.getLast?_nil] at hnext
          simp [positionAfter, hk, hnext]
        | cons x xs =>
          rw [hrecs] at hnext
          simp only [positionAfter] at hnext ⊢
          rw [List.getLast?_cons_cons]
          exact hnext

/-- The loop returns within `m` iterations when at most `m` positions are left
up to `newConf.ChainNo` and no fetched record carries a `ChainNo` below the
position it was fetched from. -/
theorem chainLoop_returns (E : ChainEnv) (newConf : Config) (n : Int)
    (hnew : newConf.GetChainNo = .ok n) (lo : Int) (hlo : minInt64 ≤ lo)
    (hcarry : ∀ p c k, lo < p → p ≤ n → E.fetch p = .ok c → c.GetChainNo = .ok k →
      p ≤ k ∧ k < maxInt64) :
    ∀ (m : Nat) (cur : Int) (prev : Config) (curr : Option Config) (fuel : Nat),
    n + 1 - cur ≤ m → m ≤ fuel → lo < cur →
    (chainLoop E newConf fuel cur prev curr).result ≠ none := by
  intro m
  induction m with
  | zero =>
    intro cur prev curr fuel hm hfuel hcur
    have hle : ¬ cur ≤ n := by omega
    have h : chainLoop E newConf fuel cur prev curr
        = ⟨[], some (chainHeadCheck E.jsonMarshal curr newConf)⟩ := by
      cases fuel <;> simp [chainLoop, hnew, hle]
    rw [h]
    simp
  | succ m ih =>
    intro cur prev curr fuel hm hfuel hcur
    rcases chainLoop_cases E newConf fuel cur prev curr with
      ⟨f, hn, h⟩ | ⟨newNo, hn, hle, h⟩ | ⟨newNo, hn, hle, h0, h⟩ |
      ⟨newNo, fuel1, f, hn, hle, h0, hf, h⟩ | ⟨newNo, fuel1, c, f, hn, hle, h0, hf, hv, h⟩ |
      ⟨newNo, fuel1, c, f, hn, hle, h0, hf, hv, hk, h⟩ |
      ⟨newNo, fuel1, c, k, hn, hle, h0, hf, hv, hk, h⟩
    · rw [h]; simp
    · rw [h]; simp
    · omega
    · rw [h]; simp
    · rw [h]; simp
    · rw [h]; simp
    · rw [hnew] at hn
      injection hn with hn
      subst hn
      obtain ⟨hk1, hk2⟩ := hcarry cur c k hcur hle hf hk
      have hadd : add64 k 1 = k + 1 := add64_one_of_lt k (by omega) hk2
      rw [h, hadd]
      exact ih (k + 1) c (some c) fuel1 (by push_cast at hm ⊢; omega) (by omega) (by omega)

theorem positionAfter_eq_nextPosition (oldConf : Config) (oldNo : Int)
    (ho : oldConf.GetChainNo = .ok oldNo) (recs : List Config) :
    positionAfter (add64 oldNo 1) recs = nextPosition oldConf recs := by
  unfold positionAfter nextPosition
  cases recs.getLast? with
  | none => simp [ho]
  | some c => simp

/-- C1. For every run of `VerifyChain`: it returned success exactly when it
returned, every fetch of the run succeeded, every fetched record was accepted
by `VerifySuccessorConfig` of the record fetched before it (`oldConf` for the
first), and the last fetched record is content-equal to `newConf`; the
successor checks made are those and no others; an event that failed is the
last event of the run and the run returned its failure; a run that has not
returned used up all its allowed iterations on fetches and checks that
succeeded and would go on to a position not beyond `newConf.ChainNo`; a run
that returned is the same under any larger bound; and the run does return
within `newConf.ChainNo - oldConf.ChainNo` iterations when no record fetched on
the way carries a `ChainNo` below the position it was fetched from. -/
theorem VerifyChain_success_iff_and_fail_fast (E : ChainEnv) (fuel : Nat)
    (oldConf newConf : Config) :
    ((VerifyChain E fuel oldConf newConf).result = some (.ok ()) ↔
      (VerifyChain E fuel oldConf newConf).result ≠ none ∧
      (∀ n ∈ fetchedPositions (VerifyChain E fuel oldConf newConf).events,
        ∃ c, E.fetch n = .ok c) ∧
      List.Chain (Accepts E) oldConf
        (fetchedRecords E (VerifyChain E fuel oldConf newConf).events) ∧
      ∃ last, (fetchedRecords E (VerifyChain E fuel oldConf newConf).events).getLast?
          = some last ∧
        ContentEqual E.jsonMarshal last newConf) ∧
    checkedPairs (VerifyChain E fuel oldConf newConf).events =
      List.zip (oldConf :: fetchedRecords E (VerifyChain E fuel oldConf newConf).events)
        (fetchedRecords E (VerifyChain E fuel oldConf newConf).events) ∧
    (∀ pre e post f, (VerifyChain E fuel oldConf newConf).events = pre ++ e :: post →
      e.FailsWith E f →
      post = [] ∧ (VerifyChain E fuel oldConf newConf).result = some (.error f)) ∧
    ((VerifyChain E fuel oldConf newConf).result = none →
      (fetchedPositions (VerifyChain E fuel oldConf newConf).events).length = fuel ∧
      (∀ e ∈ (VerifyChain E fuel oldConf newConf).events, e.Succeeds E) ∧
      ∃ newNo next, newConf.GetChainNo = .ok newNo ∧
        nextPosition oldConf (fetchedRecords E (VerifyChain E fuel oldConf newConf).events)
          = .ok next ∧
        next ≤ newNo) ∧
    ((VerifyChain E fuel oldConf newConf).result ≠ none → ∀ fuel2, fuel ≤ fuel2 →
      VerifyChain E fuel2 oldConf newConf = VerifyChain E fuel oldConf newConf) ∧
    (∀ o n, oldConf.GetChainNo = .ok o → newConf.GetChainNo = .ok n →
      minInt64 ≤ o → o < maxInt64 →
      (∀ p c k, o < p → p ≤ n → E.fetch p = .ok c → c.GetChainNo = .ok k →
        p ≤ k ∧ k < maxInt64) →
      (n - o).toNat ≤ fuel →
      (VerifyChain E fuel oldConf newConf).result ≠ none) := by
  cases ho : oldConf.GetChainNo with
  | error f0 =>
    have hv : ∀ k, VerifyChain E k oldConf newConf = ⟨[], some (.error f0)⟩ := by
      intro k
      simp [VerifyChain, ho]
    rw [hv]
    refine ⟨?_, ?_, ?_, ?_, ?_, ?_⟩
    · simp [fetchedRecords]
    · simp [checkedPairs, fetchedRecords]
    · intro pre e post f hev
      simp at hev
    · intro h
      simp at h
    · intro _ fuel2 _
      rw [hv]
    · intro o n _ _ _ _ _ _
      simp
  | ok oldNo =>
    have hv : ∀ k, VerifyChain E k oldConf newConf
        = chainLoop E newConf k (add64 oldNo 1) oldConf none := by
      intro k
      simp [VerifyChain, ho]
    rw [hv]
    refine ⟨?_, ?_, ?_, ?_, ?_, ?_⟩
    · constructor
      · intro hr
        have h := chainLoop_success_iff E newConf fuel (add64 oldNo 1) oldConf none (.ok ()) hr
        have h2 := h.1 rfl
        refine ⟨?_, h2.1, h2.2.1, ?_⟩
        · rw [hr]
          simp
        · simpa using h2.2.2
      · rintro ⟨hne, h1, h2, h3⟩
        cases hr : (chainLoop E newConf fuel (add64 oldNo 1) oldConf none).result with
        | none => exact absurd hr hne
        | some r =>
          have h := chainLoop_success_iff E newConf fuel (add64 oldNo 1) oldConf none r hr
          have hok : r = .ok () := h.2 ⟨h1, h2, by simpa using h3⟩
          rw [hok]
    · exact chainLoop_checkedPairs E newConf fuel (add64 oldNo 1) oldConf none
    · intro pre e post f hev hfail
      exact chainLoop_fail_fast E newConf fuel (add64 oldNo 1) oldConf none pre e post f hev hfail
    · intro hr
      obtain ⟨hlen, hall, newNo, next, hn, hnext, hle⟩ :=
        chainLoop_pending E newConf fuel (add64 oldNo 1) oldConf none hr
      refine ⟨hlen, hall, newNo, next, hn, ?_, hle⟩
      rw [← positionAfter_eq_nextPosition oldConf oldNo ho]
      exact hnext
    · intro hne fuel2 hle
      rw [hv]
      exact chainLoop_fuel_mono E newConf fuel (add64 oldNo 1) oldConf none fuel2 hne hle
    · intro o n ho2 hn hlo hhi hcarry hfuel
      injection ho2 with ho2
      subst ho2
      have hadd : add64 oldNo 1 = oldNo + 1 := add64_one_of_lt oldNo hlo hhi
      rw [hadd]
      apply chainLoop_returns E newConf n hn oldNo hlo hcarry (n - oldNo).toNat (oldNo + 1)
        oldConf none fuel _ hfuel (by omega)
      have := Int.self_le_toNat (n - oldNo)
      omega

/-- Witness for C1: on the three-record sample archive the chain from the
genesis record to the third record verifies, so each fetched record was
accepted by the one before it; with the second record forged, the check at
position 2 fails, is the last event, and its error is returned with position 3
never fetched. -/
theorem VerifyChain_success_iff_and_fail_fast_witness :
    ((VerifyChain sampleLongChainEnv 5 (.keypair sampleGenesis)
        (.keypair sampleLink3)).result = some (.ok ()) ∧
      fetchedPositions (VerifyChain sampleLongChainEnv 5 (.keypair sampleGenesis)
        (.keypair sampleLink3)).events = [1, 2, 3] ∧
      List.Chain (Accepts sampleLongChainEnv) (.keypair sampleGenesis)
        (fetchedRecords sampleLongChainEnv
          (VerifyChain sampleLongChainEnv 5 (.keypair sampleGenesis)
            (.keypair sampleLink3)).events)) ∧
    ((VerifyChain sampleTamperedChainEnv 5 (.keypair sampleGenesis)
        (.keypair sampleLink3)).result = some (.error (.error "invalid signature")) ∧
      fetchedPositions (VerifyChain sampleTamperedChainEnv 5 (.keypair sampleGenesis)
        (.keypair sampleLink3)).events = [1, 2]) :=
  ⟨⟨by decide, by decide,
    (((VerifyChain_success_iff_and_fail_fast sampleLongChainEnv 5 (.keypair sampleGenesis)
      (.keypair sampleLink3)).1).1 (by decide)).2.2.1⟩,
   ((VerifyChain_success_iff_and_fail_fast sampleTamperedChainEnv 5 (.keypair sampleGenesis)
      (.keypair sampleLink3)).2.2.1
      [.fetch 1, .check (.keypair sampleGenesis) (.keypair sampleLink), .fetch 2]
      (.check (.keypair sampleLink) (.keypair sampleForged2)) []
      (.error "invalid signature") (by decide)
      (by
        show sampleTamperedChainEnv.VerifySuccessorConfig (.keypair sampleLink)
          (.keypair sampleForged2) = .error (.error "invalid signature")
        decide)).2,
   by decide⟩

/-- C6. With `oldConf` and `newConf` the same record (equal `ChainNo`,
content-equal), `VerifyChain` skips its loop, hands the nil `currConf` to
`isSame` and panics instead of returning success; nothing is fetched. -/
theorem VerifyChain_equal_chainNo_panics :
    ContentEqual sampleMarshal (.keypair sampleGenesis) (.keypair sampleGenesis) ∧
    VerifyChain sampleChainEnv 5 (.keypair sampleGenesis) (.keypair sampleGenesis) =
      ⟨[], some (.error (.panic "invalid memory address or nil pointer dereference"))⟩ := by
  decide

/-- With equal chain numbers below the largest `int64`, whatever the two
records contain, `VerifyChain` fetches nothing and returns what `isSame` makes
of the nil `currConf`; `oldConf` is not looked at. -/
theorem VerifyChain_equal_chainNo (E : ChainEnv) (fuel : Nat) (oldConf newConf : Config)
    (n : Int) (hold : oldConf.GetChainNo = .ok n) (hnew : newConf.GetChainNo = .ok n)
    (hlo : minInt64 ≤ n) (hhi : n < maxInt64) :
    VerifyChain E fuel oldConf newConf =
      ⟨[], some (.error (.panic "invalid memory address or nil pointer dereference"))⟩ := by
  have hadd := add64_one_of_lt n hlo hhi
  have hle : ¬ (n + 1 ≤ n) := by omega
  cases fuel <;> simp [VerifyChain, hold, chainLoop, hnew, hadd, hle, chainHeadCheck, isSame]

theorem positionsAfter_length (lo : Int) (count : Nat) :
    (positionsAfter lo count).length = count := by
  induction count generalizing lo with
  | zero => rfl
  | succ k ih => simp [positionsAfter, ih]

/-- The loop on an archive whose records carry the number of their position
and in which each record of the walk is accepted by the one before it: from
position `cur` with `k` positions left up to `n`, it returns exactly when the
bound allows `k` iterations, and then has fetched those `k` positions. -/
theorem chainLoop_walk (E : ChainEnv) (newConf : Config) (n : Int)
    (hnew : newConf.GetChainNo = .ok n) (hhi : n < maxInt64) :
    ∀ (k : Nat) (cur : Int) (prev : Config) (curr : Option Config) (fuel : Nat),
    cur + k = n + 1 → minInt64 ≤ cur →
    (∀ p, cur ≤ p → p ≤ n → ∃ c, E.fetch p = .ok c ∧ c.GetChainNo = .ok p) →
    (∀ c, cur ≤ n → E.fetch cur = .ok c → E.VerifySuccessorConfig prev c = .ok ()) →
    (∀ p a b, cur ≤ p → p < n → E.fetch p = .ok a → E.fetch (p + 1) = .ok b →
      E.VerifySuccessorConfig a b = .ok ()) →
    ((chainLoop E newConf fuel cur prev curr).result ≠ none ↔ k ≤ fuel) ∧
    (k ≤ fuel →
      fetchedPositions (chainLoop E newConf fuel cur prev curr).events
        = positionsAfter (cur - 1) k) := by
  intro k
  induction k with
  | zero =>
    intro cur prev curr fuel hk hlo hfetch hprev hstep
    have hle : ¬ cur ≤ n := by omega
    have h : chainLoop E newConf fuel cur prev curr
        = ⟨[], some (chainHeadCheck E.jsonMarshal curr newConf)⟩ := by
      cases fuel <;> simp [chainLoop, hnew, hle]
    rw [h]
    simp [fetchedPositions, positionsAfter]
  | succ k ih =>
    intro cur prev curr fuel hk hlo hfetch hprev hstep
    have hle : cur ≤ n := by omega
    cases fuel with
    | zero => simp [chainLoop, hnew, hle]
    | succ fuel1 =>
      obtain ⟨c, hf, hc⟩ := hfetch cur (le_refl _) hle
      have hv := hprev c hle hf
      have hadd : add64 cur 1 = cur + 1 := add64_one_of_lt cur hlo (by omega)
      have h : chainLoop E newConf (fuel1 + 1) cur prev curr
          = ⟨.fetch cur :: .check prev c ::
              (chainLoop E newConf fuel1 (cur + 1) c (some c)).events,
             (chainLoop E newConf fuel1 (cur + 1) c (some c)).result⟩ := by
        simp [chainLoop, hnew, hle, hf, hv, hc, hadd]
      have hrec := ih (cur + 1) c (some c) fuel1 (by push_cast at hk ⊢; omega) (by omega)
        (fun p hp1 hp2 => hfetch p (by omega) hp2)
        (fun c2 hle2 hf2 => hstep cur c c2 (le_refl _) (by omega) hf hf2)
        (fun p a b hp1 hp2 ha hb => hstep p a b (by omega) hp2 ha hb)
      rw [h]
      simp only [fetchedPositions, positionsAfter, sub_add_cancel]
      constructor
      · rw [hrec.1]
        omega
      · intro hfuel
        have h2 := hrec.2 (by omega)
        simp only [add_sub_cancel_right] at h2
        rw [h2]

/-- C9, the claim as stated fails here. Every fetch and every check of these
three archives succeeds, and `oldConf.ChainNo < newConf.ChainNo`. In the first
the record at position 1 carries `ChainNo` 3: positions 2 and 3 are never
fetched. In the second every record carries `ChainNo` 0: position 1 is fetched
again and again and the loop has not ended after 50 iterations. In the third
each record carries the number of its position and `newConf.ChainNo` is the
largest `int64`: the next position wraps around and the loop goes on. -/
theorem VerifyChain_follows_carried_chainNo :
    (fetchedPositions (VerifyChain (relabelledEnv (fun _ => 3)) 5
        (.keypair (sampleAt 0)) (.keypair (sampleAt 3))).events = [1] ∧
      (VerifyChain (relabelledEnv (fun _ => 3)) 5
        (.keypair (sampleAt 0)) (.keypair (sampleAt 3))).result = some (.ok ()) ∧
      positionsAfter 0 3 = [1, 2, 3]) ∧
    (fetchedPositions (VerifyChain (relabelledEnv (fun _ => 0)) 50
        (.keypair (sampleAt 0)) (.keypair (sampleAt 1))).events = List.replicate 50 1 ∧
      (VerifyChain (relabelledEnv (fun _ => 0)) 50
        (.keypair (sampleAt 0)) (.keypair (sampleAt 1))).result = none ∧
      positionsAfter 0 1 = [1]) ∧
    (fetchedPositions (VerifyChain (relabelledEnv id) 3
        (.keypair (sampleAt (maxInt64 - 1))) (.keypair (sampleAt maxInt64))).events
        = [maxInt64, minInt64, minInt64 + 1] ∧
      (VerifyChain (relabelledEnv id) 3
        (.keypair (sampleAt (maxInt64 - 1))) (.keypair (sampleAt maxInt64))).result = none) := by
  decide

/-- C9, amended. On an archive in which, for the positions `p` with
`oldConf.ChainNo < p ≤ newConf.ChainNo`, every fetch succeeds with a record
carrying `ChainNo = p`, the record at `oldConf.ChainNo + 1` is accepted by
`oldConf` and each later one by the record at the position before it, and for
`int64` chain numbers with `oldConf.ChainNo < newConf.ChainNo` below the
largest `int64`, `VerifyChain` returns exactly when its loop is allowed
`newConf.ChainNo - oldConf.ChainNo` iterations, and it has then fetched the
positions `oldConf.ChainNo + 1, ..., newConf.ChainNo`, each once, in ascending
order. -/
theorem VerifyChain_fetches_each_position (E : ChainEnv) (oldConf newConf : Config)
    (o n : Int) (hold : oldConf.GetChainNo = .ok o) (hnew : newConf.GetChainNo = .ok n)
    (hlt : o < n) (hlo : minInt64 ≤ o) (hhi : n < maxInt64)
    (hfetch : ∀ p, o < p → p ≤ n → ∃ c, E.fetch p = .ok c ∧ c.GetChainNo = .ok p)
    (hfirst : ∀ c, E.fetch (o + 1) = .ok c → E.VerifySuccessorConfig oldConf c = .ok ())
    (hcheck : ∀ p a b, o < p → p < n → E.fetch p = .ok a → E.fetch (p + 1) = .ok b →
      E.VerifySuccessorConfig a b = .ok ()) (fuel : Nat) :
    ((VerifyChain E fuel oldConf newConf).result ≠ none ↔ (n - o).toNat ≤ fuel) ∧
    ((n - o).toNat ≤ fuel →
      fetchedPositions (VerifyChain E fuel oldConf newConf).events
        = positionsAfter o (n - o).toNat ∧
      (fetchedPositions (VerifyChain E fuel oldConf newConf).events).length
        = (n - o).toNat) := by
  have hadd : add64 o 1 = o + 1 := add64_one_of_lt o hlo (by omega)
  have hv : VerifyChain E fuel oldConf newConf
      = chainLoop E newConf fuel (o + 1) oldConf none := by
    simp [VerifyChain, hold, hadd]
  have hk : (o + 1) + ((n - o).toNat : Int) = n + 1 := by
    have : ((n - o).toNat : Int) = n - o := Int.toNat_of_nonneg (by omega)
    omega
  have hw := chainLoop_walk E newConf n hnew hhi (n - o).toNat (o + 1) oldConf none fuel
    hk (by omega) (fun p hp1 hp2 => hfetch p (by omega) hp2)
    (fun c _ hf => hfirst c hf)
    (fun p a b hp1 hp2 ha hb => hcheck p a b (by omega) hp2 ha hb)
  rw [hv]
  refine ⟨hw.1, fun hfuel => ?_⟩
  have h2 := hw.2 hfuel
  simp only [add_sub_cancel_right] at h2
  rw [h2]
  exact ⟨rfl, positionsAfter_length _ _⟩

theorem sampleLongChainEnv_fetch (p : Int) (hp1 : 0 < p) (hp2 : p ≤ 3) :
    (p = 1 ∧ sampleLongChainEnv.fetch p = .ok (.keypair sampleLink)) ∨
    (p = 2 ∧ sampleLongChainEnv.fetch p = .ok (.keypair sampleLink2)) ∨
    (p = 3 ∧ sampleLongChainEnv.fetch p = .ok (.keypair sampleLink3)) := by
  have h : p = 1 ∨ p = 2 ∨ p = 3 := by omega
  rcases h with rfl | rfl | rfl
  · exact Or.inl ⟨rfl, rfl⟩
  · exact Or.inr (Or.inl ⟨rfl, rfl⟩)
  · exact Or.inr (Or.inr ⟨rfl, rfl⟩)

/-- Witness for C9, amended: the three-record sample archive, whose successor
checks verify signatures, walked from the genesis record to the third record. -/
theorem VerifyChain_fetches_each_position_witness :
    fetchedPositions (VerifyChain sampleLongChainEnv 5
      (.keypair sampleGenesis) (.keypair sampleLink3)).events = [1, 2, 3] ∧
    sampleLongChainEnv.VerifySuccessorConfig (.keypair sampleLink3) (.keypair sampleLink)
      ≠ .ok () :=
  ⟨((VerifyChain_fetches_each_position sampleLongChainEnv (.keypair sampleGenesis)
    (.keypair sampleLink3) 0 3 rfl (by decide) (by decide) (by decide) (by decide)
    (by
      intro p hp1 hp2
      rcases sampleLongChainEnv_fetch p hp1 hp2 with ⟨rfl, h⟩ | ⟨rfl, h⟩ | ⟨rfl, h⟩
      · exact ⟨_, h, by decide⟩
      · exact ⟨_, h, by decide⟩
      · exact ⟨_, h, by decide⟩)
    (by
      intro c hc
      have h : sampleLongChainEnv.fetch (0 + 1) = .ok (.keypair sampleLink) := rfl
      rw [h] at hc
      injection hc with hc
      subst hc
      decide)
    (by
      intro p a b hp1 hp2 ha hb
      have hp : p = 1 ∨ p = 2 := by omega
      rcases hp with rfl | rfl
      · have h1 : sampleLongChainEnv.fetch 1 = .ok (.keypair sampleLink) := rfl
        have h2 : sampleLongChainEnv.fetch (1 + 1) = .ok (.keypair sampleLink2) := rfl
        rw [h1] at ha
        rw [h2] at hb
        injection ha with ha
        injection hb with hb
        subst ha
        subst hb
        decide
      · have h1 : sampleLongChainEnv.fetch 2 = .ok (.keypair sampleLink2) := rfl
        have h2 : sampleLongChainEnv.fetch (2 + 1) = .ok (.keypair sampleLink3) := rfl
        rw [h1] at ha
        rw [h2] at hb
        injection ha with ha
        injection hb with hb
        subst ha
        subst hb
        decide)
    5).2 (by decide)).1,
   by decide⟩

end Sigrun
